import Mathlib

/-!
Shallow embedding of the EventNFT contracts (`EventTicketNFT.sol`,
`TicketMarketplace.sol`): asset registry with lock flag and status machine,
and the escrow marketplace engine.  Addresses, token ids, wei amounts and
timestamps are modelled as `Nat`; every public contract function becomes a
total Lean function returning `Except Err _` (an `error` result models a
reverted transaction: no state change).  Outgoing value transfers are
recorded in a cumulative payout ledger `paidOut`.
-/

namespace EventNFT

/-- Error taxonomy of the spec (revert reasons classified). -/
inductive Err where
  | AuthorizationError
  | StateError
  | ValueError
  | NotFoundError
deriving DecidableEq, Repr

/-- Pointwise update of a table keyed by `Nat` (Solidity mapping write). -/
def upd {α : Type} (f : Nat → α) (k : Nat) (v : α) : Nat → α :=
  fun x => if x = k then v else f x

theorem upd_same {α : Type} (f : Nat → α) (k : Nat) (v : α) : upd f k v k = v := by
  simp [upd]

theorem upd_ne {α : Type} (f : Nat → α) (k : Nat) (v : α) {x : Nat} (h : x ≠ k) :
    upd f k v x = f x := by
  simp [upd, h]

/-- Solidity `enum TicketStatus` of EventTicketNFT.sol. -/
inductive TicketStatus where
  | PENDING
  | VERIFIED
  | LOCKED
  | UNLOCKED
  | DISPUTED
deriving DecidableEq, Repr

/-- Solidity `struct TicketInfo` of EventTicketNFT.sol. -/
structure TicketInfo where
  eventName : String
  eventDate : String
  venue : String
  seatInfo : String
  originalPrice : Nat
  originalSeller : Nat
  status : TicketStatus
  listingTimestamp : Nat
  proofImageHash : String
deriving DecidableEq, Repr

/-- Solidity mapping default value for `TicketInfo` (all fields zeroed,
status enum zero value is `PENDING`). -/
def defaultTicketInfo : TicketInfo :=
  ⟨"", "", "", "", 0, 0, .PENDING, 0, ""⟩

/-- Storage of the `EventTicketNFT` contract (plus the ERC721 owner table). -/
structure NFTState where
  nextTokenId : Nat
  owners : Nat → Option Nat
  info : Nat → TicketInfo
  isLocked : Nat → Bool
  admins : Nat → Bool
  authorizedMarketplace : Nat → Bool
  contractOwner : Nat

/-- Solidity `_exists(tokenId)` in ERC721. -/
def tokenExists (n : NFTState) (t : Nat) : Prop := (n.owners t).isSome = true

instance (n : NFTState) (t : Nat) : Decidable (tokenExists n t) :=
  inferInstanceAs (Decidable ((n.owners t).isSome = true))

namespace EventTicketNFT

/-- Solidity `mintTicket`: creates a fresh token with `status = PENDING`, owned by
`to`; never reverts in the model (metadata URI storage elided). -/
def mintTicket (n : NFTState) (dst : Nat) (eventName eventDate venue seatInfo : String)
    (originalPrice : Nat) (proofImageHash : String) (now : Nat) : NFTState × Nat :=
  let tokenId := n.nextTokenId
  ({ n with
      nextTokenId := tokenId + 1
      owners := upd n.owners tokenId (some dst)
      info := upd n.info tokenId
        ⟨eventName, eventDate, venue, seatInfo, originalPrice, dst, .PENDING, now,
          proofImageHash⟩ }, tokenId)

/-- Solidity `verifyTicket` (admin only): `PENDING → VERIFIED`. -/
def verifyTicket (n : NFTState) (sender t : Nat) : Except Err NFTState :=
  if ¬(n.admins sender = true ∨ sender = n.contractOwner) then .error .AuthorizationError
  else if ¬tokenExists n t then .error .NotFoundError
  else if ¬((n.info t).status = .PENDING) then .error .StateError
  else .ok { n with info := upd n.info t { n.info t with status := .VERIFIED } }

/-- Solidity `lockTicket` (marketplace only): requires `VERIFIED`; sets the lock
flag and `status = LOCKED`. -/
def lockTicket (n : NFTState) (sender t : Nat) : Except Err NFTState :=
  if ¬(n.authorizedMarketplace sender = true) then .error .AuthorizationError
  else if ¬tokenExists n t then .error .NotFoundError
  else if ¬((n.info t).status = .VERIFIED) then .error .StateError
  else .ok { n with
      isLocked := upd n.isLocked t true
      info := upd n.info t { n.info t with status := .LOCKED } }

/-- Solidity `unlockTicket` (marketplace only): requires the lock flag; clears it
and sets `status = UNLOCKED`. -/
def unlockTicket (n : NFTState) (sender t : Nat) : Except Err NFTState :=
  if ¬(n.authorizedMarketplace sender = true) then .error .AuthorizationError
  else if ¬tokenExists n t then .error .NotFoundError
  else if ¬(n.isLocked t = true) then .error .StateError
  else .ok { n with
      isLocked := upd n.isLocked t false
      info := upd n.info t { n.info t with status := .UNLOCKED } }

/-- Solidity `markAsDisputed` (marketplace only): sets `status = DISPUTED`
unconditionally on existence. -/
def markAsDisputed (n : NFTState) (sender t : Nat) : Except Err NFTState :=
  if ¬(n.authorizedMarketplace sender = true) then .error .AuthorizationError
  else if ¬tokenExists n t then .error .NotFoundError
  else .ok { n with info := upd n.info t { n.info t with status := .DISPUTED } }

/-- Solidity `transferFrom` / `safeTransferFrom`: the `notLocked` guard runs first,
then the ERC721 owner checks (delegated approvals are not modelled). -/
def transferFrom (n : NFTState) (sender fr dst t : Nat) : Except Err NFTState :=
  if n.isLocked t = true then .error .StateError
  else match n.owners t with
    | none => .error .NotFoundError
    | some o =>
      if ¬(sender = o) then .error .AuthorizationError
      else if ¬(fr = o) then .error .AuthorizationError
      else .ok { n with owners := upd n.owners t (some dst) }

/-- Solidity `marketplaceTransfer` (marketplace only): `_transfer` with no lock
check at all. -/
def marketplaceTransfer (n : NFTState) (sender fr dst t : Nat) : Except Err NFTState :=
  if ¬(n.authorizedMarketplace sender = true) then .error .AuthorizationError
  else match n.owners t with
    | none => .error .NotFoundError
    | some o =>
      if ¬(fr = o) then .error .AuthorizationError
      else .ok { n with owners := upd n.owners t (some dst) }

/-- Solidity `addAdmin` (owner only). -/
def addAdmin (n : NFTState) (sender a : Nat) : Except Err NFTState :=
  if ¬(sender = n.contractOwner) then .error .AuthorizationError
  else .ok { n with admins := upd n.admins a true }

/-- Solidity `removeAdmin` (owner only). -/
def removeAdmin (n : NFTState) (sender a : Nat) : Except Err NFTState :=
  if ¬(sender = n.contractOwner) then .error .AuthorizationError
  else .ok { n with admins := upd n.admins a false }

end EventTicketNFT

/-- Solidity `struct Listing` of TicketMarketplace.sol. -/
structure Listing where
  tokenId : Nat
  seller : Nat
  price : Nat
  active : Bool
  timestamp : Nat
deriving DecidableEq, Repr

/-- Solidity mapping default value for `Listing`. -/
def defaultListing : Listing := ⟨0, 0, 0, false, 0⟩

/-- Solidity `struct EscrowTransaction` of TicketMarketplace.sol. -/
structure EscrowTransaction where
  tokenId : Nat
  seller : Nat
  buyer : Nat
  price : Nat
  startTime : Nat
  sellerConfirmed : Bool
  buyerConfirmed : Bool
  disputed : Bool
  completed : Bool
  disputeReason : String
deriving DecidableEq, Repr

/-- Solidity mapping default value for `EscrowTransaction`. -/
def defaultEscrow : EscrowTransaction := ⟨0, 0, 0, 0, 0, false, false, false, false, ""⟩

/-- Solidity `CONFIRMATION_PERIOD = 7 days` (in seconds). -/
def CONFIRMATION_PERIOD : Nat := 604800

/-- Solidity `MAX_FEE = 1000` basis points. -/
def MAX_FEE : Nat := 1000

/-- Storage of the `TicketMarketplace` contract, plus its ether balance. -/
structure MarketState where
  marketplaceFee : Nat
  listings : Nat → Listing
  escrowTransactions : Nat → EscrowTransaction
  admins : Nat → Bool
  listedTokenIds : List Nat
  escrowTokenIds : List Nat
  contractBalance : Nat
  contractOwner : Nat

/-- The combined on-chain system: both contracts, the cumulative payout
ledger of value sent out of the marketplace, and the current block time. -/
structure Sys where
  nft : NFTState
  mkt : MarketState
  paidOut : Nat → Nat
  time : Nat

/-- The (fixed) address of the deployed marketplace contract: the identity
under which the engine performs the registry's privileged operations. -/
def MARKET : Nat := 1

/-- Body of the swap-with-last removal loop (`_removeFromListedTokens` /
`_removeFromEscrowTokens`): `last` is the final element of the original
array, substituted at the first occurrence of `t` before the pop. -/
def swapRem (last : Nat) : List Nat → Nat → List Nat
  | [], _ => []
  | a :: as, t => if a = t then (last :: as).dropLast else a :: swapRem last as t

/-- Swap-with-last removal of the first occurrence of `t`. -/
def swapRemove (l : List Nat) (t : Nat) : List Nat :=
  swapRem (l.getLast?.getD 0) l t

/-- Solidity `_isInEscrow`: an escrow record exists (`price > 0`) and is not
completed. -/
def isInEscrow (m : MarketState) (t : Nat) : Prop :=
  0 < (m.escrowTransactions t).price ∧ (m.escrowTransactions t).completed = false

instance (m : MarketState) (t : Nat) : Decidable (isInEscrow m t) :=
  inferInstanceAs (Decidable (0 < (m.escrowTransactions t).price ∧
    (m.escrowTransactions t).completed = false))

/-- The external funds ledger: `payable(dst).transfer(amount)`.  Fails
(aborting the whole enclosing operation) if the contract balance does not
cover the amount. -/
def ledgerTransfer (s : Sys) (dst amount : Nat) : Except Err Sys :=
  if s.mkt.contractBalance < amount then .error .ValueError
  else .ok { s with
      mkt := { s.mkt with contractBalance := s.mkt.contractBalance - amount }
      paidOut := upd s.paidOut dst (s.paidOut dst + amount) }

namespace TicketMarketplace

/-- Solidity `listTicket`: seller lists an owned, `VERIFIED` or `UNLOCKED` ticket at
a positive price. -/
def listTicket (s : Sys) (sender t price : Nat) : Except Err Sys :=
  if ¬(t < s.nft.nextTokenId) then .error .NotFoundError
  else if ¬(s.nft.owners t = some sender) then .error .AuthorizationError
  else if ¬(0 < price) then .error .ValueError
  else if (s.mkt.listings t).active = true then .error .StateError
  else if ¬((s.nft.info t).status = .VERIFIED ∨ (s.nft.info t).status = .UNLOCKED) then
    .error .StateError
  else .ok { s with
      mkt := { s.mkt with
        listings := upd s.mkt.listings t ⟨t, sender, price, true, s.time⟩
        listedTokenIds := s.mkt.listedTokenIds ++ [t] } }

/-- Solidity `unlistTicket`: the listing's seller deactivates it, unless the asset
is in open escrow. -/
def unlistTicket (s : Sys) (sender t : Nat) : Except Err Sys :=
  if ¬(t < s.nft.nextTokenId) then .error .NotFoundError
  else if ¬((s.mkt.listings t).seller = sender) then .error .AuthorizationError
  else if ¬((s.mkt.listings t).active = true) then .error .StateError
  else if isInEscrow s.mkt t then .error .StateError
  else .ok { s with
      mkt := { s.mkt with
        listings := upd s.mkt.listings t { s.mkt.listings t with active := false }
        listedTokenIds := swapRemove s.mkt.listedTokenIds t } }

/-- Solidity `purchaseTicket`: exact payment against an active listing; locks the
asset, opens the escrow, privileged-transfers custody to the buyer, closes
the listing, registers the asset in the escrow index. -/
def purchaseTicket (s : Sys) (sender value t : Nat) : Except Err Sys :=
  if ¬(t < s.nft.nextTokenId) then .error .NotFoundError
  else
    let listing := s.mkt.listings t
    if ¬(listing.active = true) then .error .StateError
    else if ¬(value = listing.price) then .error .ValueError
    else if sender = listing.seller then .error .ValueError
    else if isInEscrow s.mkt t then .error .StateError
    else
      match EventTicketNFT.lockTicket s.nft MARKET t with
      | .error e => .error e
      | .ok nft1 =>
        match EventTicketNFT.marketplaceTransfer nft1 MARKET listing.seller sender t with
        | .error e => .error e
        | .ok nft2 =>
          .ok { s with
            nft := nft2
            mkt := { s.mkt with
              contractBalance := s.mkt.contractBalance + value
              escrowTransactions := upd s.mkt.escrowTransactions t
                ⟨t, listing.seller, sender, listing.price, s.time,
                  false, false, false, false, ""⟩
              listings := upd s.mkt.listings t { listing with active := false }
              listedTokenIds := swapRemove s.mkt.listedTokenIds t
              escrowTokenIds := s.mkt.escrowTokenIds ++ [t] } }

/-- Solidity `_releaseFundsToSeller`: pay the seller `price - floor(price*fee/10000)`;
the fee remainder stays in the contract. -/
def releaseFundsToSeller (s : Sys) (t : Nat) : Except Err Sys :=
  let escrow := s.mkt.escrowTransactions t
  let fee := escrow.price * s.mkt.marketplaceFee / 10000
  ledgerTransfer s escrow.seller (escrow.price - fee)

/-- Solidity `_refundBuyer`: pay the buyer the full escrow price. -/
def refundBuyer (s : Sys) (t : Nat) : Except Err Sys :=
  ledgerTransfer s (s.mkt.escrowTransactions t).buyer (s.mkt.escrowTransactions t).price

/-- Write an escrow record. -/
def setEscrow (s : Sys) (t : Nat) (e : EscrowTransaction) : Sys :=
  { s with mkt := { s.mkt with escrowTransactions := upd s.mkt.escrowTransactions t e } }

/-- Solidity `_completeEscrow`: settle funds, unlock the asset, mark the escrow
completed, drop it from the escrow index. -/
def completeEscrow (s : Sys) (t : Nat) : Except Err Sys :=
  match releaseFundsToSeller s t with
  | .error e => .error e
  | .ok s1 =>
    match EventTicketNFT.unlockTicket s1.nft MARKET t with
    | .error e => .error e
    | .ok nft1 =>
      let s2 := { s1 with nft := nft1 }
      let s3 := setEscrow s2 t { s2.mkt.escrowTransactions t with completed := true }
      .ok { s3 with mkt := { s3.mkt with
        escrowTokenIds := swapRemove s3.mkt.escrowTokenIds t } }

/-- Solidity `confirmTransaction`: a party of an open, undisputed escrow confirms
once; when both have confirmed, the escrow settles in the same call. -/
def confirmTransaction (s : Sys) (sender t : Nat) : Except Err Sys :=
  if ¬(t < s.nft.nextTokenId) then .error .NotFoundError
  else
    let escrow := s.mkt.escrowTransactions t
    if ¬(0 < escrow.price) then .error .NotFoundError
    else if escrow.completed = true then .error .StateError
    else if escrow.disputed = true then .error .StateError
    else if ¬(sender = escrow.buyer ∨ sender = escrow.seller) then
      .error .AuthorizationError
    else if sender = escrow.seller then
      if escrow.sellerConfirmed = true then .error .StateError
      else
        let escrow1 := { escrow with sellerConfirmed := true }
        let s1 := setEscrow s t escrow1
        if escrow1.sellerConfirmed = true ∧ escrow1.buyerConfirmed = true then
          completeEscrow s1 t
        else .ok s1
    else
      if escrow.buyerConfirmed = true then .error .StateError
      else
        let escrow1 := { escrow with buyerConfirmed := true }
        let s1 := setEscrow s t escrow1
        if escrow1.sellerConfirmed = true ∧ escrow1.buyerConfirmed = true then
          completeEscrow s1 t
        else .ok s1

/-- Solidity `autoReleaseEscrow`: anyone may settle an open, undisputed escrow once
the confirmation period has elapsed. -/
def autoReleaseEscrow (s : Sys) (t : Nat) : Except Err Sys :=
  if ¬(t < s.nft.nextTokenId) then .error .NotFoundError
  else
    let escrow := s.mkt.escrowTransactions t
    if ¬(0 < escrow.price) then .error .NotFoundError
    else if escrow.completed = true then .error .StateError
    else if escrow.disputed = true then .error .StateError
    else if s.time < escrow.startTime + CONFIRMATION_PERIOD then .error .StateError
    else completeEscrow s t

/-- Solidity `raiseDispute`: a party of an open, undisputed escrow disputes it; the
registry marks the asset `DISPUTED`. -/
def raiseDispute (s : Sys) (sender t : Nat) (reason : String) : Except Err Sys :=
  if ¬(t < s.nft.nextTokenId) then .error .NotFoundError
  else
    let escrow := s.mkt.escrowTransactions t
    if ¬(0 < escrow.price) then .error .NotFoundError
    else if escrow.completed = true then .error .StateError
    else if escrow.disputed = true then .error .StateError
    else if ¬(sender = escrow.buyer ∨ sender = escrow.seller) then
      .error .AuthorizationError
    else
      let s1 := setEscrow s t { escrow with disputed := true, disputeReason := reason }
      match EventTicketNFT.markAsDisputed s1.nft MARKET t with
      | .error e => .error e
      | .ok nft1 => .ok { s1 with nft := nft1 }

/-- Solidity `resolveDispute` (admin only): seller wins keeps custody with the buyer
and pays the seller minus fee; buyer wins refunds in full and returns
custody to the seller; either way unlock, complete, deregister. -/
def resolveDispute (s : Sys) (sender t : Nat) (sellerWins : Bool) : Except Err Sys :=
  if ¬(s.mkt.admins sender = true ∨ sender = s.mkt.contractOwner) then
    .error .AuthorizationError
  else if ¬(t < s.nft.nextTokenId) then .error .NotFoundError
  else
    let escrow := s.mkt.escrowTransactions t
    if ¬(escrow.disputed = true) then .error .StateError
    else if escrow.completed = true then .error .StateError
    else
      let afterFunds : Except Err Sys :=
        match sellerWins with
        | true =>
          match releaseFundsToSeller s t with
          | .error e => .error e
          | .ok s1 =>
            match EventTicketNFT.unlockTicket s1.nft MARKET t with
            | .error e => .error e
            | .ok nft1 => .ok { s1 with nft := nft1 }
        | false =>
          match refundBuyer s t with
          | .error e => .error e
          | .ok s1 =>
            match EventTicketNFT.marketplaceTransfer s1.nft MARKET escrow.buyer
                escrow.seller t with
            | .error e => .error e
            | .ok nft1 =>
              match EventTicketNFT.unlockTicket nft1 MARKET t with
              | .error e => .error e
              | .ok nft2 => .ok { s1 with nft := nft2 }
      match afterFunds with
      | .error e => .error e
      | .ok s2 =>
        let s3 := setEscrow s2 t { s2.mkt.escrowTransactions t with completed := true }
        .ok { s3 with mkt := { s3.mkt with
          escrowTokenIds := swapRemove s3.mkt.escrowTokenIds t } }

/-- Solidity `updateMarketplaceFee` (owner only): bounded by `MAX_FEE`. -/
def updateMarketplaceFee (s : Sys) (sender newFee : Nat) : Except Err Sys :=
  if ¬(sender = s.mkt.contractOwner) then .error .AuthorizationError
  else if MAX_FEE < newFee then .error .ValueError
  else .ok { s with mkt := { s.mkt with marketplaceFee := newFee } }

/-- Marketplace `addAdmin` (owner only). -/
def addAdmin (s : Sys) (sender a : Nat) : Except Err Sys :=
  if ¬(sender = s.mkt.contractOwner) then .error .AuthorizationError
  else .ok { s with mkt := { s.mkt with admins := upd s.mkt.admins a true } }

/-- Marketplace `removeAdmin` (owner only). -/
def removeAdmin (s : Sys) (sender a : Nat) : Except Err Sys :=
  if ¬(sender = s.mkt.contractOwner) then .error .AuthorizationError
  else .ok { s with mkt := { s.mkt with admins := upd s.mkt.admins a false } }

/-- Solidity `withdrawFees` (owner only): transfers the whole contract balance to
the owner. -/
def withdrawFees (s : Sys) (sender : Nat) : Except Err Sys :=
  if ¬(sender = s.mkt.contractOwner) then .error .AuthorizationError
  else
    let balance := s.mkt.contractBalance
    if ¬(0 < balance) then .error .StateError
    else ledgerTransfer s s.mkt.contractOwner balance

end TicketMarketplace

/-- Ticket metadata bundled for a mint action. -/
structure MintData where
  eventName : String
  eventDate : String
  venue : String
  seatInfo : String
  originalPrice : Nat
  proofImageHash : String
deriving DecidableEq, Repr

/-- One public transaction of the combined system.  The registry's
privileged entry points (`lockTicket`, `unlockTicket`, `markAsDisputed`,
`marketplaceTransfer`) are reachable only through the marketplace actions,
mirroring the deployment in which the marketplace contract is the single
authorized marketplace identity. -/
inductive Act where
  | tick (dt : Nat)
  | mint (dst : Nat) (d : MintData)
  | verify (sender t : Nat)
  | transfer (sender fr dst t : Nat)
  | nftAddAdmin (sender a : Nat)
  | nftRemoveAdmin (sender a : Nat)
  | list (sender t price : Nat)
  | unlist (sender t : Nat)
  | purchase (sender value t : Nat)
  | confirm (sender t : Nat)
  | autoRelease (sender t : Nat)
  | dispute (sender t : Nat) (reason : String)
  | resolve (sender t : Nat) (sellerWins : Bool)
  | updateFee (sender newFee : Nat)
  | mktAddAdmin (sender a : Nat)
  | mktRemoveAdmin (sender a : Nat)
  | withdraw (sender : Nat)
deriving DecidableEq, Repr

/-- Lift an NFT-only operation to the combined state. -/
def liftNFT (s : Sys) : Except Err NFTState → Except Err Sys
  | .error e => .error e
  | .ok n => .ok { s with nft := n }

/-- Transition function of the combined system: one public transaction,
all-or-nothing. -/
def step (s : Sys) : Act → Except Err Sys
  | .tick dt => .ok { s with time := s.time + dt }
  | .mint dst d => .ok { s with
      nft := (EventTicketNFT.mintTicket s.nft dst d.eventName d.eventDate d.venue
        d.seatInfo d.originalPrice d.proofImageHash s.time).1 }
  | .verify sender t => liftNFT s (EventTicketNFT.verifyTicket s.nft sender t)
  | .transfer sender fr dst t => liftNFT s (EventTicketNFT.transferFrom s.nft sender fr dst t)
  | .nftAddAdmin sender a => liftNFT s (EventTicketNFT.addAdmin s.nft sender a)
  | .nftRemoveAdmin sender a => liftNFT s (EventTicketNFT.removeAdmin s.nft sender a)
  | .list sender t price => TicketMarketplace.listTicket s sender t price
  | .unlist sender t => TicketMarketplace.unlistTicket s sender t
  | .purchase sender value t => TicketMarketplace.purchaseTicket s sender value t
  | .confirm sender t => TicketMarketplace.confirmTransaction s sender t
  | .autoRelease _ t => TicketMarketplace.autoReleaseEscrow s t
  | .dispute sender t reason => TicketMarketplace.raiseDispute s sender t reason
  | .resolve sender t w => TicketMarketplace.resolveDispute s sender t w
  | .updateFee sender f => TicketMarketplace.updateMarketplaceFee s sender f
  | .mktAddAdmin sender a => TicketMarketplace.addAdmin s sender a
  | .mktRemoveAdmin sender a => TicketMarketplace.removeAdmin s sender a
  | .withdraw sender => TicketMarketplace.withdrawFees s sender

/-- Deployment state: both contracts fresh, deployer `d` is owner and
admin of both, the marketplace contract address is the single authorized
marketplace of the registry. -/
def init (d : Nat) : Sys :=
  { nft := { nextTokenId := 0
             owners := fun _ => none
             info := fun _ => defaultTicketInfo
             isLocked := fun _ => false
             admins := upd (fun _ => false) d true
             authorizedMarketplace := upd (fun _ => false) MARKET true
             contractOwner := d }
    mkt := { marketplaceFee := 250
             listings := fun _ => defaultListing
             escrowTransactions := fun _ => defaultEscrow
             admins := upd (fun _ => false) d true
             listedTokenIds := []
             escrowTokenIds := []
             contractBalance := 0
             contractOwner := d }
    paidOut := fun _ => 0
    time := 0 }

/-- Execution traces: `s'` is obtainable from `s` by a sequence of
successful public transactions. -/
inductive Steps : Sys → Sys → Prop where
  | refl (s : Sys) : Steps s s
  | next {s s' s'' : Sys} (a : Act) : Steps s s' → step s' a = .ok s'' → Steps s s''

/-- Reachable: obtainable from some deployment state. -/
def Reach (s : Sys) : Prop := ∃ d, Steps (init d) s

/-- Run one transaction, discarding it if it reverts (the on-chain effect
of a failed call). -/
def stepD (s : Sys) (a : Act) : Sys :=
  match step s a with
  | .error _ => s
  | .ok s' => s'

/-- Run a sequence of transactions, reverted ones discarded. -/
def runD (s : Sys) : List Act → Sys
  | [] => s
  | a :: l => runD (stepD s a) l

theorem steps_stepD (s : Sys) (a : Act) : Steps s (stepD s a) := by
  unfold stepD
  cases h : step s a with
  | error e => exact Steps.refl s
  | ok s' => exact Steps.next a (Steps.refl s) h

theorem steps_trans {s s' s'' : Sys} (h : Steps s s') (h' : Steps s' s'') :
    Steps s s'' := by
  induction h' with
  | refl => exact h
  | next a _ hstep ih => exact Steps.next a ih hstep

theorem steps_runD (s : Sys) (l : List Act) : Steps s (runD s l) := by
  induction l generalizing s with
  | nil => exact Steps.refl s
  | cons a l ih => exact steps_trans (steps_stepD s a) (ih (stepD s a))

theorem reach_runD (d : Nat) (l : List Act) : Reach (runD (init d) l) :=
  ⟨d, steps_runD (init d) l⟩

/-- Total price of the still-open escrows: the funds the engine holds in
trust (as opposed to accrued fees). -/
def openEscrowHeld (s : Sys) : Nat :=
  (s.mkt.escrowTokenIds.filter (fun t => decide (isInEscrow s.mkt t))).foldr
    (fun t acc => (s.mkt.escrowTransactions t).price + acc) 0

/-- The withdrawable fee pool as the spec describes it: contract balance
net of the funds held for open escrows. -/
def feesAccrued (s : Sys) : Nat := s.mkt.contractBalance - openEscrowHeld s

/-! ### Success characterizations of the registry operations -/

namespace EventTicketNFT

theorem verifyTicket_ok {n : NFTState} {sender t : Nat} {n' : NFTState}
    (h : verifyTicket n sender t = .ok n') :
    (n.admins sender = true ∨ sender = n.contractOwner) ∧ tokenExists n t ∧
      (n.info t).status = .PENDING ∧
      n' = { n with info := upd n.info t { n.info t with status := .VERIFIED } } := by
  unfold verifyTicket at h
  split_ifs at h with h1 h2 h3
  exact ⟨h1, h2, h3, (Except.ok.inj h).symm⟩

theorem lockTicket_ok {n : NFTState} {sender t : Nat} {n' : NFTState}
    (h : lockTicket n sender t = .ok n') :
    n.authorizedMarketplace sender = true ∧ tokenExists n t ∧
      (n.info t).status = .VERIFIED ∧
      n' = { n with
        isLocked := upd n.isLocked t true
        info := upd n.info t { n.info t with status := .LOCKED } } := by
  unfold lockTicket at h
  split_ifs at h with h1 h2 h3
  exact ⟨h1, h2, h3, (Except.ok.inj h).symm⟩

theorem unlockTicket_ok {n : NFTState} {sender t : Nat} {n' : NFTState}
    (h : unlockTicket n sender t = .ok n') :
    n.authorizedMarketplace sender = true ∧ tokenExists n t ∧ n.isLocked t = true ∧
      n' = { n with
        isLocked := upd n.isLocked t false
        info := upd n.info t { n.info t with status := .UNLOCKED } } := by
  unfold unlockTicket at h
  split_ifs at h with h1 h2 h3
  exact ⟨h1, h2, h3, (Except.ok.inj h).symm⟩

theorem markAsDisputed_ok {n : NFTState} {sender t : Nat} {n' : NFTState}
    (h : markAsDisputed n sender t = .ok n') :
    n.authorizedMarketplace sender = true ∧ tokenExists n t ∧
      n' = { n with info := upd n.info t { n.info t with status := .DISPUTED } } := by
  unfold markAsDisputed at h
  split_ifs at h with h1 h2
  exact ⟨h1, h2, (Except.ok.inj h).symm⟩

theorem transferFrom_ok {n : NFTState} {sender fr dst t : Nat} {n' : NFTState}
    (h : transferFrom n sender fr dst t = .ok n') :
    n.isLocked t = false ∧ n.owners t = some fr ∧ sender = fr ∧
      n' = { n with owners := upd n.owners t (some dst) } := by
  unfold transferFrom at h
  split_ifs at h with h1
  rcases ho : n.owners t with _ | o
  · rw [ho] at h; cases h
  · rw [ho] at h
    dsimp only at h
    split_ifs at h with h2 h3
    subst h2; subst h3
    exact ⟨Bool.not_eq_true _ ▸ h1, rfl, rfl, (Except.ok.inj h).symm⟩

theorem marketplaceTransfer_ok {n : NFTState} {sender fr dst t : Nat} {n' : NFTState}
    (h : marketplaceTransfer n sender fr dst t = .ok n') :
    n.authorizedMarketplace sender = true ∧ n.owners t = some fr ∧
      n' = { n with owners := upd n.owners t (some dst) } := by
  unfold marketplaceTransfer at h
  split_ifs at h with h1
  rcases ho : n.owners t with _ | o
  · rw [ho] at h; cases h
  · rw [ho] at h
    dsimp only at h
    split_ifs at h with h2
    subst h2
    exact ⟨h1, rfl, (Except.ok.inj h).symm⟩

theorem addAdmin_ok {n : NFTState} {sender a : Nat} {n' : NFTState}
    (h : addAdmin n sender a = .ok n') :
    sender = n.contractOwner ∧ n' = { n with admins := upd n.admins a true } := by
  unfold addAdmin at h
  split_ifs at h with h1
  exact ⟨h1, (Except.ok.inj h).symm⟩

theorem removeAdmin_ok {n : NFTState} {sender a : Nat} {n' : NFTState}
    (h : removeAdmin n sender a = .ok n') :
    sender = n.contractOwner ∧ n' = { n with admins := upd n.admins a false } := by
  unfold removeAdmin at h
  split_ifs at h with h1
  exact ⟨h1, (Except.ok.inj h).symm⟩

end EventTicketNFT

theorem ledgerTransfer_ok {s : Sys} {dst amount : Nat} {s' : Sys}
    (h : ledgerTransfer s dst amount = .ok s') :
    amount ≤ s.mkt.contractBalance ∧
      s' = { s with
        mkt := { s.mkt with contractBalance := s.mkt.contractBalance - amount }
        paidOut := upd s.paidOut dst (s.paidOut dst + amount) } := by
  unfold ledgerTransfer at h
  split_ifs at h with h1
  exact ⟨Nat.le_of_not_lt h1, (Except.ok.inj h).symm⟩

/-! ### Success characterizations of the marketplace operations -/

namespace TicketMarketplace

theorem listTicket_ok {s : Sys} {sender t price : Nat} {s' : Sys}
    (h : listTicket s sender t price = .ok s') :
    t < s.nft.nextTokenId ∧ s.nft.owners t = some sender ∧ 0 < price ∧
      (s.mkt.listings t).active = false ∧
      ((s.nft.info t).status = .VERIFIED ∨ (s.nft.info t).status = .UNLOCKED) ∧
      s' = { s with mkt := { s.mkt with
        listings := upd s.mkt.listings t ⟨t, sender, price, true, s.time⟩
        listedTokenIds := s.mkt.listedTokenIds ++ [t] } } := by
  unfold listTicket at h
  split_ifs at h with h1 h2 h3 h4 h5
  exact ⟨h1, h2, h3, Bool.not_eq_true _ ▸ h4, h5, (Except.ok.inj h).symm⟩

theorem unlistTicket_ok {s : Sys} {sender t : Nat} {s' : Sys}
    (h : unlistTicket s sender t = .ok s') :
    t < s.nft.nextTokenId ∧ (s.mkt.listings t).seller = sender ∧
      (s.mkt.listings t).active = true ∧ ¬isInEscrow s.mkt t ∧
      s' = { s with mkt := { s.mkt with
        listings := upd s.mkt.listings t { s.mkt.listings t with active := false }
        listedTokenIds := swapRemove s.mkt.listedTokenIds t } } := by
  unfold unlistTicket at h
  split_ifs at h with h1 h2 h3 h4
  exact ⟨h1, h2, h3, h4, (Except.ok.inj h).symm⟩

theorem purchaseTicket_ok {s : Sys} {sender value t : Nat} {s' : Sys}
    (h : purchaseTicket s sender value t = .ok s') :
    t < s.nft.nextTokenId ∧ (s.mkt.listings t).active = true ∧
      value = (s.mkt.listings t).price ∧ sender ≠ (s.mkt.listings t).seller ∧
      ¬isInEscrow s.mkt t ∧ s.nft.authorizedMarketplace MARKET = true ∧
      (s.nft.info t).status = .VERIFIED ∧
      s.nft.owners t = some (s.mkt.listings t).seller ∧
      s' = { s with
        nft := { s.nft with
          owners := upd s.nft.owners t (some sender)
          isLocked := upd s.nft.isLocked t true
          info := upd s.nft.info t { s.nft.info t with status := .LOCKED } }
        mkt := { s.mkt with
          contractBalance := s.mkt.contractBalance + value
          escrowTransactions := upd s.mkt.escrowTransactions t
            ⟨t, (s.mkt.listings t).seller, sender, (s.mkt.listings t).price, s.time,
              false, false, false, false, ""⟩
          listings := upd s.mkt.listings t { s.mkt.listings t with active := false }
          listedTokenIds := swapRemove s.mkt.listedTokenIds t
          escrowTokenIds := s.mkt.escrowTokenIds ++ [t] } } := by
  unfold purchaseTicket at h
  dsimp only at h
  split_ifs at h with h1 h2 h3 h4 h5
  split at h
  · cases h
  case _ nft1 heq =>
    split at h
    · cases h
    case _ nft2 heq2 =>
      obtain ⟨ha, _, hst, hn1⟩ := EventTicketNFT.lockTicket_ok heq
      subst hn1
      obtain ⟨_, ho2, hn2⟩ := EventTicketNFT.marketplaceTransfer_ok heq2
      subst hn2
      refine ⟨h1, h2, h3, h4, h5, ha, hst, ho2, ?_⟩
      cases h
      rfl

theorem completeEscrow_ok {s : Sys} {t : Nat} {s' : Sys}
    (h : completeEscrow s t = .ok s') :
    (s.mkt.escrowTransactions t).price -
        (s.mkt.escrowTransactions t).price * s.mkt.marketplaceFee / 10000 ≤
        s.mkt.contractBalance ∧
      s.nft.authorizedMarketplace MARKET = true ∧ s.nft.isLocked t = true ∧
      s' = { s with
        nft := { s.nft with
          isLocked := upd s.nft.isLocked t false
          info := upd s.nft.info t { s.nft.info t with status := .UNLOCKED } }
        mkt := { s.mkt with
          contractBalance := s.mkt.contractBalance -
            ((s.mkt.escrowTransactions t).price -
              (s.mkt.escrowTransactions t).price * s.mkt.marketplaceFee / 10000)
          escrowTransactions := upd s.mkt.escrowTransactions t
            { s.mkt.escrowTransactions t with completed := true }
          escrowTokenIds := swapRemove s.mkt.escrowTokenIds t }
        paidOut := upd s.paidOut (s.mkt.escrowTransactions t).seller
          (s.paidOut (s.mkt.escrowTransactions t).seller +
            ((s.mkt.escrowTransactions t).price -
              (s.mkt.escrowTransactions t).price * s.mkt.marketplaceFee / 10000)) } := by
  unfold completeEscrow releaseFundsToSeller at h
  dsimp only at h
  split at h
  · cases h
  case _ s1 heq =>
    obtain ⟨hle, hs1⟩ := ledgerTransfer_ok heq
    subst hs1
    split at h
    · cases h
    case _ nft1 heq2 =>
      obtain ⟨ha, hx, hl, hn1⟩ := EventTicketNFT.unlockTicket_ok heq2
      subst hn1
      refine ⟨hle, ha, hl, ?_⟩
      cases h
      rfl

theorem confirmTransaction_ok_cases {s : Sys} {sender t : Nat} {s' : Sys}
    (h : confirmTransaction s sender t = .ok s') :
    t < s.nft.nextTokenId ∧ 0 < (s.mkt.escrowTransactions t).price ∧
      (s.mkt.escrowTransactions t).completed = false ∧
      (s.mkt.escrowTransactions t).disputed = false ∧
      ((sender = (s.mkt.escrowTransactions t).seller ∧
          (s.mkt.escrowTransactions t).sellerConfirmed = false ∧
          (((s.mkt.escrowTransactions t).buyerConfirmed = true ∧
              completeEscrow (setEscrow s t
                { s.mkt.escrowTransactions t with sellerConfirmed := true }) t = .ok s') ∨
            ((s.mkt.escrowTransactions t).buyerConfirmed = false ∧
              s' = setEscrow s t
                { s.mkt.escrowTransactions t with sellerConfirmed := true }))) ∨
        (sender ≠ (s.mkt.escrowTransactions t).seller ∧
          sender = (s.mkt.escrowTransactions t).buyer ∧
          (s.mkt.escrowTransactions t).buyerConfirmed = false ∧
          (((s.mkt.escrowTransactions t).sellerConfirmed = true ∧
              completeEscrow (setEscrow s t
                { s.mkt.escrowTransactions t with buyerConfirmed := true }) t = .ok s') ∨
            ((s.mkt.escrowTransactions t).sellerConfirmed = false ∧
              s' = setEscrow s t
                { s.mkt.escrowTransactions t with buyerConfirmed := true })))) := by
  unfold confirmTransaction at h
  dsimp only at h
  split_ifs at h with h1 h2 h3 h4 h5 h6 h7 h8 h9 h10
  · refine ⟨h1, h2, Bool.not_eq_true _ ▸ h3, Bool.not_eq_true _ ▸ h4, .inl ⟨h6,
      Bool.not_eq_true _ ▸ h7, .inl ⟨h8.2, h⟩⟩⟩
  · refine ⟨h1, h2, Bool.not_eq_true _ ▸ h3, Bool.not_eq_true _ ▸ h4, .inl ⟨h6,
      Bool.not_eq_true _ ▸ h7, .inr ⟨?_, (Except.ok.inj h).symm⟩⟩⟩
    have := h8
    simp only [true_and] at this
    exact Bool.not_eq_true _ ▸ this
  · rcases h5 with hb | hs
    · refine ⟨h1, h2, Bool.not_eq_true _ ▸ h3, Bool.not_eq_true _ ▸ h4, .inr ⟨h6, hb,
        Bool.not_eq_true _ ▸ h9, .inl ⟨h10.1, h⟩⟩⟩
    · exact absurd hs h6
  · rcases h5 with hb | hs
    · refine ⟨h1, h2, Bool.not_eq_true _ ▸ h3, Bool.not_eq_true _ ▸ h4, .inr ⟨h6, hb,
        Bool.not_eq_true _ ▸ h9, .inr ⟨?_, (Except.ok.inj h).symm⟩⟩⟩
      have := h10
      simp only [and_true] at this
      exact Bool.not_eq_true _ ▸ this
    · exact absurd hs h6

theorem autoReleaseEscrow_ok {s : Sys} {t : Nat} {s' : Sys}
    (h : autoReleaseEscrow s t = .ok s') :
    t < s.nft.nextTokenId ∧ 0 < (s.mkt.escrowTransactions t).price ∧
      (s.mkt.escrowTransactions t).completed = false ∧
      (s.mkt.escrowTransactions t).disputed = false ∧
      (s.mkt.escrowTransactions t).startTime + CONFIRMATION_PERIOD ≤ s.time ∧
      completeEscrow s t = .ok s' := by
  unfold autoReleaseEscrow at h
  dsimp only at h
  split_ifs at h with h1 h2 h3 h4 h5
  exact ⟨h1, h2, Bool.not_eq_true _ ▸ h3, Bool.not_eq_true _ ▸ h4, Nat.le_of_not_lt h5, h⟩

theorem raiseDispute_ok {s : Sys} {sender t : Nat} {reason : String} {s' : Sys}
    (h : raiseDispute s sender t reason = .ok s') :
    t < s.nft.nextTokenId ∧ 0 < (s.mkt.escrowTransactions t).price ∧
      (s.mkt.escrowTransactions t).completed = false ∧
      (s.mkt.escrowTransactions t).disputed = false ∧
      (sender = (s.mkt.escrowTransactions t).buyer ∨
        sender = (s.mkt.escrowTransactions t).seller) ∧
      s.nft.authorizedMarketplace MARKET = true ∧ tokenExists s.nft t ∧
      s' = { s with
        nft := { s.nft with
          info := upd s.nft.info t { s.nft.info t with status := .DISPUTED } }
        mkt := { s.mkt with
          escrowTransactions := upd s.mkt.escrowTransactions t
            { s.mkt.escrowTransactions t with
                disputed := true, disputeReason := reason } } } := by
  unfold raiseDispute at h
  dsimp only at h
  split_ifs at h with h1 h2 h3 h4 h5
  split at h
  · cases h
  case _ nft1 heq =>
    obtain ⟨ha, hx, hn1⟩ := EventTicketNFT.markAsDisputed_ok heq
    subst hn1
    refine ⟨h1, h2, Bool.not_eq_true _ ▸ h3, Bool.not_eq_true _ ▸ h4, h5, ha, hx, ?_⟩
    cases h
    rfl

theorem resolveDispute_ok_buyerWins {s : Sys} {sender t : Nat} {s' : Sys}
    (h : resolveDispute s sender t false = .ok s') :
    (s.mkt.admins sender = true ∨ sender = s.mkt.contractOwner) ∧
      t < s.nft.nextTokenId ∧ (s.mkt.escrowTransactions t).disputed = true ∧
      (s.mkt.escrowTransactions t).completed = false ∧
      (s.mkt.escrowTransactions t).price ≤ s.mkt.contractBalance ∧
      s.nft.authorizedMarketplace MARKET = true ∧
      s.nft.owners t = some (s.mkt.escrowTransactions t).buyer ∧
      s.nft.isLocked t = true ∧
      s' = { s with
        nft := { s.nft with
          owners := upd s.nft.owners t (some (s.mkt.escrowTransactions t).seller)
          isLocked := upd s.nft.isLocked t false
          info := upd s.nft.info t { s.nft.info t with status := .UNLOCKED } }
        mkt := { s.mkt with
          contractBalance := s.mkt.contractBalance - (s.mkt.escrowTransactions t).price
          escrowTransactions := upd s.mkt.escrowTransactions t
            { s.mkt.escrowTransactions t with completed := true }
          escrowTokenIds := swapRemove s.mkt.escrowTokenIds t }
        paidOut := upd s.paidOut (s.mkt.escrowTransactions t).buyer
          (s.paidOut (s.mkt.escrowTransactions t).buyer +
            (s.mkt.escrowTransactions t).price) } := by
  unfold resolveDispute refundBuyer at h
  dsimp only at h
  split_ifs at h with h1 h2 h3 h4
  split at h
  · cases h
  case _ s2 heq =>
    split at heq
    · cases heq
    case _ s1 heq1 =>
      obtain ⟨hle, hs1⟩ := ledgerTransfer_ok heq1
      subst hs1
      split at heq
      · cases heq
      case _ nft1 heq2 =>
        obtain ⟨ha, ho, hn1⟩ := EventTicketNFT.marketplaceTransfer_ok heq2
        subst hn1
        split at heq
        · cases heq
        case _ nft2 heq3 =>
          obtain ⟨_, _, hl, hn2⟩ := EventTicketNFT.unlockTicket_ok heq3
          subst hn2
          cases heq
          refine ⟨h1, h2, h3, Bool.not_eq_true _ ▸ h4, hle, ha, ho, ?_, ?_⟩
          · simpa [upd] using hl
          · cases h
            simp only [upd]
            rfl

theorem resolveDispute_ok_sellerWins {s : Sys} {sender t : Nat} {s' : Sys}
    (h : resolveDispute s sender t true = .ok s') :
    (s.mkt.admins sender = true ∨ sender = s.mkt.contractOwner) ∧
      t < s.nft.nextTokenId ∧ (s.mkt.escrowTransactions t).disputed = true ∧
      (s.mkt.escrowTransactions t).completed = false ∧
      (s.mkt.escrowTransactions t).price -
        (s.mkt.escrowTransactions t).price * s.mkt.marketplaceFee / 10000 ≤
        s.mkt.contractBalance ∧
      s.nft.authorizedMarketplace MARKET = true ∧ s.nft.isLocked t = true ∧
      s' = { s with
        nft := { s.nft with
          isLocked := upd s.nft.isLocked t false
          info := upd s.nft.info t { s.nft.info t with status := .UNLOCKED } }
        mkt := { s.mkt with
          contractBalance := s.mkt.contractBalance -
            ((s.mkt.escrowTransactions t).price -
              (s.mkt.escrowTransactions t).price * s.mkt.marketplaceFee / 10000)
          escrowTransactions := upd s.mkt.escrowTransactions t
            { s.mkt.escrowTransactions t with completed := true }
          escrowTokenIds := swapRemove s.mkt.escrowTokenIds t }
        paidOut := upd s.paidOut (s.mkt.escrowTransactions t).seller
          (s.paidOut (s.mkt.escrowTransactions t).seller +
            ((s.mkt.escrowTransactions t).price -
              (s.mkt.escrowTransactions t).price * s.mkt.marketplaceFee / 10000)) } := by
  unfold resolveDispute releaseFundsToSeller at h
  dsimp only at h
  split_ifs at h with h1 h2 h3 h4
  split at h
  · cases h
  case _ s2 heq =>
    split at heq
    · cases heq
    case _ s1 heq1 =>
      obtain ⟨hle, hs1⟩ := ledgerTransfer_ok heq1
      subst hs1
      split at heq
      · cases heq
      case _ nft1 heq2 =>
        obtain ⟨ha, _, hl, hn1⟩ := EventTicketNFT.unlockTicket_ok heq2
        subst hn1
        cases heq
        refine ⟨h1, h2, h3, Bool.not_eq_true _ ▸ h4, hle, ha, hl, ?_⟩
        cases h
        rfl

theorem updateMarketplaceFee_ok {s : Sys} {sender newFee : Nat} {s' : Sys}
    (h : updateMarketplaceFee s sender newFee = .ok s') :
    sender = s.mkt.contractOwner ∧ newFee ≤ MAX_FEE ∧
      s' = { s with mkt := { s.mkt with marketplaceFee := newFee } } := by
  unfold updateMarketplaceFee at h
  split_ifs at h with h1 h2
  exact ⟨h1, Nat.le_of_not_lt h2, (Except.ok.inj h).symm⟩

theorem mktAddAdmin_ok {s : Sys} {sender a : Nat} {s' : Sys}
    (h : addAdmin s sender a = .ok s') :
    sender = s.mkt.contractOwner ∧
      s' = { s with mkt := { s.mkt with admins := upd s.mkt.admins a true } } := by
  unfold addAdmin at h
  split_ifs at h with h1
  exact ⟨h1, (Except.ok.inj h).symm⟩

theorem mktRemoveAdmin_ok {s : Sys} {sender a : Nat} {s' : Sys}
    (h : removeAdmin s sender a = .ok s') :
    sender = s.mkt.contractOwner ∧
      s' = { s with mkt := { s.mkt with admins := upd s.mkt.admins a false } } := by
  unfold removeAdmin at h
  split_ifs at h with h1
  exact ⟨h1, (Except.ok.inj h).symm⟩

theorem withdrawFees_ok {s : Sys} {sender : Nat} {s' : Sys}
    (h : withdrawFees s sender = .ok s') :
    sender = s.mkt.contractOwner ∧ 0 < s.mkt.contractBalance ∧
      s' = { s with
        mkt := { s.mkt with
          contractBalance := s.mkt.contractBalance - s.mkt.contractBalance }
        paidOut := upd s.paidOut s.mkt.contractOwner
          (s.paidOut s.mkt.contractOwner + s.mkt.contractBalance) } := by
  unfold withdrawFees at h
  dsimp only at h
  split_ifs at h with h1 h2
  obtain ⟨_, hs⟩ := ledgerTransfer_ok h
  exact ⟨h1, h2, hs⟩

end TicketMarketplace

theorem liftNFT_ok {s : Sys} {r : Except Err NFTState} {s' : Sys}
    (h : liftNFT s r = .ok s') : ∃ n, r = .ok n ∧ s' = { s with nft := n } := by
  cases r with
  | error e => cases h
  | ok n => exact ⟨n, rfl, (Except.ok.inj h).symm⟩

/-! ### The inductive invariant of the combined system -/

/-- The inductive invariant: the lock flag tracks the `LOCKED`/`DISPUTED`
statuses, every open escrow is on a locked asset, and storage above the
token counter is still at its default values. -/
structure Inv (s : Sys) : Prop where
  lock_status : ∀ t, s.nft.isLocked t = true ↔
    ((s.nft.info t).status = .LOCKED ∨ (s.nft.info t).status = .DISPUTED)
  escrow_locked : ∀ t, isInEscrow s.mkt t → s.nft.isLocked t = true
  fresh_owner : ∀ t, s.nft.nextTokenId ≤ t → s.nft.owners t = none
  fresh_lock : ∀ t, s.nft.nextTokenId ≤ t → s.nft.isLocked t = false
  fresh_info : ∀ t, s.nft.nextTokenId ≤ t → s.nft.info t = defaultTicketInfo
  fresh_escrow : ∀ t, s.nft.nextTokenId ≤ t → (s.mkt.escrowTransactions t).price = 0

theorem inv_init (d : Nat) : Inv (init d) := by
  refine ⟨?_, ?_, ?_, ?_, ?_, ?_⟩ <;> intro t <;>
    simp [init, isInEscrow, defaultTicketInfo, defaultEscrow]

/-- A token below the counter, given the freshness invariant. -/
theorem lt_next_of_owner {s : Sys} (hInv : Inv s) {t o : Nat}
    (h : s.nft.owners t = some o) : t < s.nft.nextTokenId := by
  by_contra hle
  rw [hInv.fresh_owner t (Nat.le_of_not_lt hle)] at h
  cases h

theorem inv_congr {s s' : Sys} (hInv : Inv s)
    (h1 : s'.nft.nextTokenId = s.nft.nextTokenId)
    (h2 : s'.nft.owners = s.nft.owners)
    (h3 : s'.nft.isLocked = s.nft.isLocked)
    (h4 : s'.nft.info = s.nft.info)
    (h5 : s'.mkt.escrowTransactions = s.mkt.escrowTransactions) : Inv s' := by
  refine ⟨?_, ?_, ?_, ?_, ?_, ?_⟩ <;> intro t
  · rw [h3, h4]; exact hInv.lock_status t
  · intro hesc
    rw [h3]
    exact hInv.escrow_locked t (by simpa [isInEscrow, h5] using hesc)
  · rw [h1, h2]; exact hInv.fresh_owner t
  · rw [h1, h3]; exact hInv.fresh_lock t
  · rw [h1, h4]; exact hInv.fresh_info t
  · rw [h1, h5]; exact hInv.fresh_escrow t

theorem isInEscrow_upd_ne {m : MarketState} {t t0 : Nat} {e : EscrowTransaction}
    (hne : t ≠ t0) :
    isInEscrow { m with escrowTransactions := upd m.escrowTransactions t0 e } t ↔
      isInEscrow m t := by
  simp [isInEscrow, upd_ne _ _ _ hne]

/-- The state after a settlement (`_completeEscrow` and both
`resolveDispute` outcomes share this shape up to the owner table):
lock cleared, status `UNLOCKED`, escrow completed. -/
theorem inv_settle_shape {s : Sys} (hInv : Inv s) {t0 : Nat} (ht0 : t0 < s.nft.nextTokenId)
    (ow : Nat → Option Nat) (howf : ∀ t, t ≠ t0 → ow t = s.nft.owners t)
    (e : EscrowTransaction) (hec : e.completed = true)
    (hep : e.price = (s.mkt.escrowTransactions t0).price)
    (mk : MarketState)
    (hmk : mk.escrowTransactions = upd s.mkt.escrowTransactions t0 e)
    (p : Nat → Nat) (tm : Nat) :
    Inv { nft := { s.nft with
            owners := ow
            isLocked := upd s.nft.isLocked t0 false
            info := upd s.nft.info t0 { s.nft.info t0 with status := .UNLOCKED } }
          mkt := mk
          paidOut := p
          time := tm } := by
  refine ⟨?_, ?_, ?_, ?_, ?_, ?_⟩ <;> intro t <;> dsimp only
  · by_cases ht : t = t0
    · subst ht; simp [upd_same]
    · simp only [upd_ne _ _ _ ht]; exact hInv.lock_status t
  · intro hesc
    simp only [isInEscrow, hmk] at hesc
    by_cases ht : t = t0
    · subst ht; rw [upd_same] at hesc; rw [hec] at hesc; exact absurd hesc.2 (by simp)
    · rw [upd_ne _ _ _ ht] at hesc
      simp only [upd_ne _ _ _ ht]
      exact hInv.escrow_locked t hesc
  · intro hle
    rw [howf t (by omega)]
    exact hInv.fresh_owner t hle
  · intro hle
    rw [upd_ne _ _ _ (by omega : t ≠ t0)]
    exact hInv.fresh_lock t hle
  · intro hle
    rw [upd_ne _ _ _ (by omega : t ≠ t0)]
    exact hInv.fresh_info t hle
  · intro hle
    rw [hmk, upd_ne _ _ _ (by omega : t ≠ t0)]
    exact hInv.fresh_escrow t hle

theorem inv_completeEscrow {s : Sys} {t0 : Nat} {s' : Sys} (hInv : Inv s)
    (ht0 : t0 < s.nft.nextTokenId)
    (h : TicketMarketplace.completeEscrow s t0 = .ok s') : Inv s' := by
  obtain ⟨_, _, _, hs⟩ := TicketMarketplace.completeEscrow_ok h
  subst hs
  exact inv_settle_shape hInv ht0 _ (fun t _ => rfl)
    { s.mkt.escrowTransactions t0 with completed := true } rfl rfl _ rfl _ _

theorem inv_step {s : Sys} {a : Act} {s' : Sys} (hInv : Inv s) (h : step s a = .ok s') :
    Inv s' := by
  cases a with
  | tick dt =>
    simp only [step] at h
    obtain rfl := (Except.ok.inj h)
    exact inv_congr hInv rfl rfl rfl rfl rfl
  | mint dst d =>
    simp only [step, EventTicketNFT.mintTicket] at h
    obtain rfl := (Except.ok.inj h)
    refine ⟨?_, ?_, ?_, ?_, ?_, ?_⟩ <;> intro t <;> dsimp only
    · by_cases ht : t = s.nft.nextTokenId
      · subst ht
        simp [upd_same, hInv.fresh_lock _ (Nat.le_refl _)]
      · simp only [upd_ne _ _ _ ht]; exact hInv.lock_status t
    · intro hesc
      exact hInv.escrow_locked t hesc
    · intro hle
      rw [upd_ne _ _ _ (by omega : t ≠ s.nft.nextTokenId)]
      exact hInv.fresh_owner t (by omega)
    · intro hle
      exact hInv.fresh_lock t (by omega)
    · intro hle
      rw [upd_ne _ _ _ (by omega : t ≠ s.nft.nextTokenId)]
      exact hInv.fresh_info t (by omega)
    · intro hle
      exact hInv.fresh_escrow t (by omega)
  | verify sender t0 =>
    simp only [step] at h
    obtain ⟨n, hn, hs⟩ := liftNFT_ok h
    obtain ⟨_, hx, hst, hn'⟩ := EventTicketNFT.verifyTicket_ok hn
    subst hn'; subst hs
    have ht0 : t0 < s.nft.nextTokenId := by
      rcases ho : s.nft.owners t0 with _ | o
      · rw [tokenExists, ho] at hx; cases hx
      · exact lt_next_of_owner hInv ho
    refine ⟨?_, ?_, ?_, ?_, ?_, ?_⟩ <;> intro t <;> dsimp only
    · by_cases ht : t = t0
      · subst ht
        have hls := hInv.lock_status t
        rw [hst] at hls
        have hlf : s.nft.isLocked t = false := by simpa using hls
        simp [upd_same, hlf]
      · simp only [upd_ne _ _ _ ht]; exact hInv.lock_status t
    · intro hesc
      exact hInv.escrow_locked t hesc
    · exact hInv.fresh_owner t
    · exact hInv.fresh_lock t
    · intro hle
      rw [upd_ne _ _ _ (by omega : t ≠ t0)]
      exact hInv.fresh_info t hle
    · exact hInv.fresh_escrow t
  | transfer sender fr dst t0 =>
    simp only [step] at h
    obtain ⟨n, hn, hs⟩ := liftNFT_ok h
    obtain ⟨_, ho, _, hn'⟩ := EventTicketNFT.transferFrom_ok hn
    subst hn'; subst hs
    have ht0 : t0 < s.nft.nextTokenId := lt_next_of_owner hInv ho
    refine ⟨?_, ?_, ?_, ?_, ?_, ?_⟩ <;> intro t <;> dsimp only
    · exact hInv.lock_status t
    · intro hesc; exact hInv.escrow_locked t hesc
    · intro hle
      rw [upd_ne _ _ _ (by omega : t ≠ t0)]
      exact hInv.fresh_owner t hle
    · exact hInv.fresh_lock t
    · exact hInv.fresh_info t
    · exact hInv.fresh_escrow t
  | nftAddAdmin sender a =>
    simp only [step] at h
    obtain ⟨n, hn, hs⟩ := liftNFT_ok h
    obtain ⟨_, hn'⟩ := EventTicketNFT.addAdmin_ok hn
    subst hn'; subst hs
    exact inv_congr hInv rfl rfl rfl rfl rfl
  | nftRemoveAdmin sender a =>
    simp only [step] at h
    obtain ⟨n, hn, hs⟩ := liftNFT_ok h
    obtain ⟨_, hn'⟩ := EventTicketNFT.removeAdmin_ok hn
    subst hn'; subst hs
    exact inv_congr hInv rfl rfl rfl rfl rfl
  | list sender t0 price =>
    simp only [step] at h
    obtain ⟨_, _, _, _, _, hs⟩ := TicketMarketplace.listTicket_ok h
    subst hs
    exact inv_congr hInv rfl rfl rfl rfl rfl
  | unlist sender t0 =>
    simp only [step] at h
    obtain ⟨_, _, _, _, hs⟩ := TicketMarketplace.unlistTicket_ok h
    subst hs
    exact inv_congr hInv rfl rfl rfl rfl rfl
  | purchase sender value t0 =>
    simp only [step] at h
    obtain ⟨ht0, _, _, _, _, _, _, _, hs⟩ := TicketMarketplace.purchaseTicket_ok h
    subst hs
    refine ⟨?_, ?_, ?_, ?_, ?_, ?_⟩ <;> intro t <;> dsimp only
    · by_cases ht : t = t0
      · subst ht; simp [upd_same]
      · simp only [upd_ne _ _ _ ht]; exact hInv.lock_status t
    · intro hesc
      by_cases ht : t = t0
      · subst ht; simp [upd_same]
      · simp only [isInEscrow, upd_ne _ _ _ ht] at hesc
        simp only [upd_ne _ _ _ ht]
        exact hInv.escrow_locked t hesc
    · intro hle
      rw [upd_ne _ _ _ (by omega : t ≠ t0)]
      exact hInv.fresh_owner t hle
    · intro hle
      rw [upd_ne _ _ _ (by omega : t ≠ t0)]
      exact hInv.fresh_lock t hle
    · intro hle
      rw [upd_ne _ _ _ (by omega : t ≠ t0)]
      exact hInv.fresh_info t hle
    · intro hle
      rw [upd_ne _ _ _ (by omega : t ≠ t0)]
      exact hInv.fresh_escrow t hle
  | confirm sender t0 =>
    simp only [step] at h
    obtain ⟨ht0, _, hcmp, _, hcase⟩ := TicketMarketplace.confirmTransaction_ok_cases h
    have flagInv : ∀ e1 : EscrowTransaction,
        e1.price = (s.mkt.escrowTransactions t0).price →
        e1.completed = (s.mkt.escrowTransactions t0).completed →
        Inv (TicketMarketplace.setEscrow s t0 e1) := by
      intro e1 hp hc
      refine ⟨hInv.lock_status, ?_, hInv.fresh_owner, hInv.fresh_lock, hInv.fresh_info, ?_⟩
      · intro t hesc
        by_cases ht : t = t0
        · subst ht
          refine hInv.escrow_locked t ?_
          simp only [TicketMarketplace.setEscrow, isInEscrow, upd_same] at hesc
          exact ⟨hp ▸ hesc.1, hc ▸ hesc.2⟩
        · rw [TicketMarketplace.setEscrow, isInEscrow_upd_ne ht] at hesc
          exact hInv.escrow_locked t hesc
      · intro t hle
        have hle' : s.nft.nextTokenId ≤ t := hle
        show (upd s.mkt.escrowTransactions t0 e1 t).price = 0
        rw [upd_ne _ _ _ (by omega : t ≠ t0)]
        exact hInv.fresh_escrow t hle'
    rcases hcase with ⟨_, _, ⟨_, hdone⟩ | ⟨_, hs⟩⟩ | ⟨_, _, _, ⟨_, hdone⟩ | ⟨_, hs⟩⟩
    · exact inv_completeEscrow
        (flagInv { s.mkt.escrowTransactions t0 with sellerConfirmed := true } rfl rfl)
        ht0 hdone
    · subst hs
      exact flagInv { s.mkt.escrowTransactions t0 with sellerConfirmed := true } rfl rfl
    · exact inv_completeEscrow
        (flagInv { s.mkt.escrowTransactions t0 with buyerConfirmed := true } rfl rfl)
        ht0 hdone
    · subst hs
      exact flagInv { s.mkt.escrowTransactions t0 with buyerConfirmed := true } rfl rfl
  | autoRelease sender t0 =>
    simp only [step] at h
    obtain ⟨ht0, _, _, _, _, hdone⟩ := TicketMarketplace.autoReleaseEscrow_ok h
    exact inv_completeEscrow hInv ht0 hdone
  | dispute sender t0 reason =>
    simp only [step] at h
    obtain ⟨ht0, hp, hc, _, _, _, _, hs⟩ := TicketMarketplace.raiseDispute_ok h
    subst hs
    have hlocked : s.nft.isLocked t0 = true :=
      hInv.escrow_locked t0 ⟨hp, hc⟩
    refine ⟨?_, ?_, ?_, ?_, ?_, ?_⟩ <;> intro t <;> dsimp only
    · by_cases ht : t = t0
      · subst ht; simp [upd_same, hlocked]
      · simp only [upd_ne _ _ _ ht]; exact hInv.lock_status t
    · intro hesc
      by_cases ht : t = t0
      · subst ht; exact hlocked
      · rw [isInEscrow_upd_ne ht] at hesc
        exact hInv.escrow_locked t hesc
    · exact hInv.fresh_owner t
    · exact hInv.fresh_lock t
    · intro hle
      rw [upd_ne _ _ _ (by omega : t ≠ t0)]
      exact hInv.fresh_info t hle
    · intro hle
      rw [upd_ne _ _ _ (by omega : t ≠ t0)]
      exact hInv.fresh_escrow t hle
  | resolve sender t0 w =>
    simp only [step] at h
    cases w with
    | true =>
      obtain ⟨_, ht0, _, _, _, _, _, hs⟩ := TicketMarketplace.resolveDispute_ok_sellerWins h
      subst hs
      exact inv_settle_shape hInv ht0 _ (fun t _ => rfl)
        { s.mkt.escrowTransactions t0 with completed := true } rfl rfl _ rfl _ _
    | false =>
      obtain ⟨_, ht0, _, _, _, _, _, _, hs⟩ := TicketMarketplace.resolveDispute_ok_buyerWins h
      subst hs
      exact inv_settle_shape hInv ht0 _
        (fun t ht => upd_ne _ _ _ ht)
        { s.mkt.escrowTransactions t0 with completed := true } rfl rfl _ rfl _ _
  | updateFee sender f =>
    simp only [step] at h
    obtain ⟨_, _, hs⟩ := TicketMarketplace.updateMarketplaceFee_ok h
    subst hs
    exact inv_congr hInv rfl rfl rfl rfl rfl
  | mktAddAdmin sender a =>
    simp only [step] at h
    obtain ⟨_, hs⟩ := TicketMarketplace.mktAddAdmin_ok h
    subst hs
    exact inv_congr hInv rfl rfl rfl rfl rfl
  | mktRemoveAdmin sender a =>
    simp only [step] at h
    obtain ⟨_, hs⟩ := TicketMarketplace.mktRemoveAdmin_ok h
    subst hs
    exact inv_congr hInv rfl rfl rfl rfl rfl
  | withdraw sender =>
    simp only [step] at h
    obtain ⟨_, _, hs⟩ := TicketMarketplace.withdrawFees_ok h
    subst hs
    exact inv_congr hInv rfl rfl rfl rfl rfl

theorem inv_steps {s s' : Sys} (hInv : Inv s) (h : Steps s s') : Inv s' := by
  induction h with
  | refl => exact hInv
  | next a _ hstep ih => exact inv_step ih hstep

theorem reach_inv {s : Sys} (h : Reach s) : Inv s := by
  obtain ⟨d, hsteps⟩ := h
  exact inv_steps (inv_init d) hsteps

/-- Frame facts of a single transaction: no operation ever rewrites the
registry's marketplace-authorization table, and a minted token never
loses its owner entry (there is no burn in the core protocol). -/
theorem nft_frame_step {s : Sys} {a : Act} {s' : Sys} (h : step s a = .ok s') :
    s'.nft.authorizedMarketplace = s.nft.authorizedMarketplace ∧
    ((∀ u, u < s.nft.nextTokenId → (s.nft.owners u).isSome = true) →
      ∀ u, u < s'.nft.nextTokenId → (s'.nft.owners u).isSome = true) := by
  cases a with
  | tick dt =>
    simp only [step] at h
    obtain rfl := Except.ok.inj h
    exact ⟨rfl, fun hP => hP⟩
  | mint dst d =>
    simp only [step, EventTicketNFT.mintTicket] at h
    obtain rfl := Except.ok.inj h
    refine ⟨rfl, fun hP u hu => ?_⟩
    dsimp only at hu ⊢
    by_cases ht : u = s.nft.nextTokenId
    · rw [ht, upd_same]; rfl
    · rw [upd_ne _ _ _ ht]
      exact hP u (by omega)
  | verify sender t0 =>
    simp only [step] at h
    obtain ⟨n, hn, hs⟩ := liftNFT_ok h
    obtain ⟨_, _, _, hn'⟩ := EventTicketNFT.verifyTicket_ok hn
    subst hn'; subst hs
    exact ⟨rfl, fun hP => hP⟩
  | transfer sender fr dst t0 =>
    simp only [step] at h
    obtain ⟨n, hn, hs⟩ := liftNFT_ok h
    obtain ⟨_, _, _, hn'⟩ := EventTicketNFT.transferFrom_ok hn
    subst hn'; subst hs
    refine ⟨rfl, fun hP u hu => ?_⟩
    dsimp only at hu ⊢
    by_cases ht : u = t0
    · rw [ht, upd_same]; rfl
    · rw [upd_ne _ _ _ ht]
      exact hP u hu
  | nftAddAdmin sender a =>
    simp only [step] at h
    obtain ⟨n, hn, hs⟩ := liftNFT_ok h
    obtain ⟨_, hn'⟩ := EventTicketNFT.addAdmin_ok hn
    subst hn'; subst hs
    exact ⟨rfl, fun hP => hP⟩
  | nftRemoveAdmin sender a =>
    simp only [step] at h
    obtain ⟨n, hn, hs⟩ := liftNFT_ok h
    obtain ⟨_, hn'⟩ := EventTicketNFT.removeAdmin_ok hn
    subst hn'; subst hs
    exact ⟨rfl, fun hP => hP⟩
  | list sender t0 price =>
    simp only [step] at h
    obtain ⟨_, _, _, _, _, hs⟩ := TicketMarketplace.listTicket_ok h
    subst hs
    exact ⟨rfl, fun hP => hP⟩
  | unlist sender t0 =>
    simp only [step] at h
    obtain ⟨_, _, _, _, hs⟩ := TicketMarketplace.unlistTicket_ok h
    subst hs
    exact ⟨rfl, fun hP => hP⟩
  | purchase sender value t0 =>
    simp only [step] at h
    obtain ⟨_, _, _, _, _, _, _, _, hs⟩ := TicketMarketplace.purchaseTicket_ok h
    subst hs
    refine ⟨rfl, fun hP u hu => ?_⟩
    dsimp only at hu ⊢
    by_cases ht : u = t0
    · rw [ht, upd_same]; rfl
    · rw [upd_ne _ _ _ ht]
      exact hP u hu
  | confirm sender t0 =>
    simp only [step] at h
    obtain ⟨_, _, _, _, hcase⟩ := TicketMarketplace.confirmTransaction_ok_cases h
    have handle : ∀ e1 : EscrowTransaction,
        TicketMarketplace.completeEscrow (TicketMarketplace.setEscrow s t0 e1) t0 =
          .ok s' →
        s'.nft.authorizedMarketplace = s.nft.authorizedMarketplace ∧
        ((∀ u, u < s.nft.nextTokenId → (s.nft.owners u).isSome = true) →
          ∀ u, u < s'.nft.nextTokenId → (s'.nft.owners u).isSome = true) := by
      intro e1 hdone
      obtain ⟨_, _, _, hs⟩ := TicketMarketplace.completeEscrow_ok hdone
      subst hs
      exact ⟨rfl, fun hP => hP⟩
    rcases hcase with ⟨_, _, ⟨_, hdone⟩ | ⟨_, hs⟩⟩ | ⟨_, _, _, ⟨_, hdone⟩ | ⟨_, hs⟩⟩
    · exact handle _ hdone
    · subst hs; exact ⟨rfl, fun hP => hP⟩
    · exact handle _ hdone
    · subst hs; exact ⟨rfl, fun hP => hP⟩
  | autoRelease sender t0 =>
    simp only [step] at h
    obtain ⟨_, _, _, _, _, hdone⟩ := TicketMarketplace.autoReleaseEscrow_ok h
    obtain ⟨_, _, _, hs⟩ := TicketMarketplace.completeEscrow_ok hdone
    subst hs
    exact ⟨rfl, fun hP => hP⟩
  | dispute sender t0 reason =>
    simp only [step] at h
    obtain ⟨_, _, _, _, _, _, _, hs⟩ := TicketMarketplace.raiseDispute_ok h
    subst hs
    exact ⟨rfl, fun hP => hP⟩
  | resolve sender t0 w =>
    simp only [step] at h
    cases w with
    | true =>
      obtain ⟨_, _, _, _, _, _, _, hs⟩ := TicketMarketplace.resolveDispute_ok_sellerWins h
      subst hs
      exact ⟨rfl, fun hP => hP⟩
    | false =>
      obtain ⟨_, _, _, _, _, _, _, _, hs⟩ := TicketMarketplace.resolveDispute_ok_buyerWins h
      subst hs
      refine ⟨rfl, fun hP u hu => ?_⟩
      dsimp only at hu ⊢
      by_cases ht : u = t0
      · rw [ht, upd_same]; rfl
      · rw [upd_ne _ _ _ ht]
        exact hP u hu
  | updateFee sender f =>
    simp only [step] at h
    obtain ⟨_, _, hs⟩ := TicketMarketplace.updateMarketplaceFee_ok h
    subst hs
    exact ⟨rfl, fun hP => hP⟩
  | mktAddAdmin sender a =>
    simp only [step] at h
    obtain ⟨_, hs⟩ := TicketMarketplace.mktAddAdmin_ok h
    subst hs
    exact ⟨rfl, fun hP => hP⟩
  | mktRemoveAdmin sender a =>
    simp only [step] at h
    obtain ⟨_, hs⟩ := TicketMarketplace.mktRemoveAdmin_ok h
    subst hs
    exact ⟨rfl, fun hP => hP⟩
  | withdraw sender =>
    simp only [step] at h
    obtain ⟨_, _, hs⟩ := TicketMarketplace.withdrawFees_ok h
    subst hs
    exact ⟨rfl, fun hP => hP⟩

theorem steps_nft_facts {s s' : Sys} (hs : Steps s s')
    (hbase : s.nft.authorizedMarketplace MARKET = true ∧
      ∀ u, u < s.nft.nextTokenId → (s.nft.owners u).isSome = true) :
    s'.nft.authorizedMarketplace MARKET = true ∧
    ∀ u, u < s'.nft.nextTokenId → (s'.nft.owners u).isSome = true := by
  induction hs with
  | refl => exact hbase
  | next a _ hstep ih =>
    obtain ⟨hauth, hmint⟩ := nft_frame_step hstep
    exact ⟨hauth ▸ ih.1, hmint ih.2⟩

/-- In every reachable state the marketplace contract is authorized and
every minted token has an owner. -/
theorem reach_nft_facts {s : Sys} (h : Reach s) :
    s.nft.authorizedMarketplace MARKET = true ∧
    ∀ u, u < s.nft.nextTokenId → (s.nft.owners u).isSome = true := by
  obtain ⟨d, hsteps⟩ := h
  refine steps_nft_facts hsteps ⟨rfl, ?_⟩
  intro u hu
  exact absurd hu (by simp [init])

/-! ### Swap-with-last removal facts -/

theorem swapRem_of_not_mem {last : Nat} :
    ∀ {l : List Nat} {t : Nat}, t ∉ l → swapRem last l t = l := by
  intro l
  induction l with
  | nil => intro t _; rfl
  | cons a as ih =>
    intro t hmem
    rw [swapRem, if_neg (fun hat => hmem (by subst hat; exact List.mem_cons_self a as))]
    rw [ih (fun hm => hmem (List.mem_cons_of_mem a hm))]

theorem swapRem_append {last t : Nat} {l1 rest : List Nat} (h : t ∉ l1) :
    swapRem last (l1 ++ rest) t = l1 ++ swapRem last rest t := by
  induction l1 with
  | nil => rfl
  | cons a as ih =>
    rw [List.cons_append, swapRem,
      if_neg (fun hat => h (by subst hat; exact List.mem_cons_self a as)),
      List.cons_append, ih (fun hm => h (List.mem_cons_of_mem a hm))]

theorem mem_of_mem_dropLast {x : Nat} :
    ∀ {l : List Nat}, x ∈ l.dropLast → x ∈ l := by
  intro l
  induction l with
  | nil => intro h; simp at h
  | cons a as ih =>
    intro h
    cases as with
    | nil => simp at h
    | cons b bs =>
      rw [List.dropLast_cons₂, List.mem_cons] at h
      rcases h with rfl | h
      · exact List.mem_cons_self _ _
      · exact List.mem_cons_of_mem a (ih h)

/-- The swap-with-last removal really removes an asset that occurs at most
once in the index. -/
theorem not_mem_swapRemove {l : List Nat} {t : Nat} (hcnt : l.count t ≤ 1) :
    t ∉ swapRemove l t := by
  by_cases hm : t ∈ l
  · obtain ⟨l1, l2, rfl⟩ := List.append_of_mem hm
    have hc : l1.count t + (l2.count t + 1) ≤ 1 := by
      simpa [List.count_append] using hcnt
    have h1 : t ∉ l1 := List.count_eq_zero.mp (by omega)
    have h2 : t ∉ l2 := List.count_eq_zero.mp (by omega)
    rw [swapRemove, swapRem_append h1, swapRem, if_pos rfl]
    intro hmem
    rcases List.mem_append.mp hmem with hL | hR
    · exact h1 hL
    cases l2 with
    | nil => simp at hR
    | cons c l2' =>
      have hlast : ((l1 ++ t :: c :: l2').getLast?.getD 0) ∈ c :: l2' := by
        rw [List.getLast?_append_cons, List.getLast?_cons_cons]
        have hne : c :: l2' ≠ [] := by simp
        rw [List.getLast?_eq_getLast _ hne]
        exact List.getLast_mem hne
      rw [List.dropLast_cons₂, List.mem_cons] at hR
      rcases hR with heq | hR
      · exact h2 (by rw [heq]; exact hlast)
      · exact h2 (mem_of_mem_dropLast hR)
  · rw [swapRemove, swapRem_of_not_mem hm]
    exact hm

/-! ### Concrete execution traces (deployer 0, seller 2, buyer 3) -/

/-- Result is a revert with the given error. -/
def isErr (r : Except Err Sys) (e : Err) : Bool :=
  match r with
  | .error e' => e' == e
  | .ok _ => false

/-- Result is a successful transaction. -/
def isOk (r : Except Err Sys) : Bool :=
  match r with
  | .error _ => false
  | .ok _ => true

/-- Actions that reach the registry's privileged `marketplaceTransfer`. -/
def privilegedAct : Act → Bool
  | .purchase _ _ _ => true
  | .resolve _ _ _ => true
  | _ => false

/-- Sample ticket metadata. -/
def mdA : MintData := ⟨"Concert", "2024-12-31", "Arena", "A5", 10000, "QmProof"⟩

/-- Mint, verify, list at price 10000, and purchase by buyer 3. -/
def actsPurchased : List Act :=
  [.mint 2 mdA, .verify 0 0, .list 2 0 10000, .purchase 3 10000 0]

def sPurchased : Sys := runD (init 0) actsPurchased

def sHalfConfirmed : Sys := runD (init 0) (actsPurchased ++ [.confirm 2 0])

def sSettled : Sys := runD (init 0) (actsPurchased ++ [.confirm 2 0, .confirm 3 0])

def sDisputed : Sys :=
  runD (init 0) (actsPurchased ++ [.dispute 3 0 "item not received"])

def sRelisted : Sys :=
  runD (init 0) (actsPurchased ++ [.confirm 2 0, .confirm 3 0, .list 3 0 10000])

/-- Seller 2 lists token 0 and then transfers it away to 5 while listed. -/
def sStaleListing : Sys :=
  runD (init 0) [.mint 2 mdA, .verify 0 0, .list 2 0 10000, .transfer 2 2 5 0]

/-- Actions producing one settled escrow (fee 250 accrued) and one
still-open escrow (10000 held in trust for token 1). -/
def actsTwoEscrows : List Act :=
  actsPurchased ++ [.confirm 2 0, .confirm 3 0, .mint 2 mdA,
    .verify 0 1, .list 2 1 10000, .purchase 4 10000 1]

/-- One settled escrow (fee 250 accrued) and one still-open escrow
(10000 held in trust for token 1). -/
def sTwoEscrows : Sys := runD (init 0) actsTwoEscrows

def sDrained : Sys := stepD sTwoEscrows (.withdraw 0)

/-- The drained state after the confirmation period of the still-open
escrow on token 1 has elapsed. -/
def sPostDrain : Sys :=
  runD (init 0) (actsTwoEscrows ++ [.withdraw 0, .tick 604800])

/-- The drained state after the seller of the still-open escrow on
token 1 has confirmed: the buyer's confirmation would now trigger a
settlement the contract can no longer fund. -/
def sDrainedHalf : Sys :=
  runD (init 0) (actsTwoEscrows ++ [.withdraw 0, .confirm 2 1])

theorem smoke_test : sPurchased.nft.isLocked 0 = true ∧
    feesAccrued sTwoEscrows = 250 := by decide

/-! ### Claim theorems -/

/-- C1: `withdrawFees` is claimed to transfer exactly the accrued fee pool
and leave open-escrow funds untouched.  The code transfers the whole
contract balance: at `sTwoEscrows` the fee pool is 250 and 10000 is held
for the open escrow on token 1, yet the owner's withdrawal pays out 10250,
empties the contract, and leaves the still-open escrow unfunded — its
later auto-release reverts in the funds ledger. -/
theorem C1_withdrawFees_drains_escrow_funds :
    feesAccrued sTwoEscrows = 250 ∧
    openEscrowHeld sTwoEscrows = 10000 ∧
    isInEscrow sTwoEscrows.mkt 1 ∧
    isOk (step sTwoEscrows (.withdraw 0)) = true ∧
    sDrained.paidOut 0 = sTwoEscrows.paidOut 0 + 10250 ∧
    sDrained.mkt.contractBalance = 0 ∧
    isInEscrow sDrained.mkt 1 ∧
    isErr (step (stepD sDrained (.tick 604800)) (.autoRelease 9 1)) .ValueError = true := by
  refine ⟨?_, ?_, ?_, ?_, ?_, ?_, ?_, ?_⟩ <;> decide

/-- C2 (counterexample): in the reachable state `sDisputed` (a purchase
followed by `raiseDispute`), the asset is still locked but its status is
`DISPUTED`, so `locked = true ↔ status = LOCKED` fails. -/
theorem C2_counterexample :
    Reach sDisputed ∧ sDisputed.nft.isLocked 0 = true ∧
    (sDisputed.nft.info 0).status = .DISPUTED ∧
    ¬(sDisputed.nft.isLocked 0 = true ↔ (sDisputed.nft.info 0).status = .LOCKED) := by
  refine ⟨reach_runD 0 _, ?_, ?_, ?_⟩ <;> decide

/-- C2 (amended): in every reachable state, the lock flag is set exactly
when the status is `LOCKED` or `DISPUTED`. -/
theorem C2_locked_iff_locked_or_disputed (s : Sys) (h : Reach s) (t : Nat) :
    s.nft.isLocked t = true ↔
      ((s.nft.info t).status = .LOCKED ∨ (s.nft.info t).status = .DISPUTED) :=
  (reach_inv h).lock_status t

theorem C2_locked_iff_locked_or_disputed_witness :
    sDisputed.nft.isLocked 0 = true ↔
      ((sDisputed.nft.info 0).status = .LOCKED ∨
        (sDisputed.nft.info 0).status = .DISPUTED) :=
  C2_locked_iff_locked_or_disputed sDisputed (reach_runD 0 _) 0

/-- C3: the spec's `Unlocked →(lock again, on relisting)→ Locked`
transition does not exist in the code: in the reachable state `sRelisted`
(settled escrow, then the new owner relists the `UNLOCKED` ticket) a
purchase with exact payment by a fresh buyer reverts in `lockTicket`
(which demands `VERIFIED`), and the asset never becomes locked. -/
theorem C3_relist_purchase_reverts :
    Reach sRelisted ∧ (sRelisted.mkt.listings 0).active = true ∧
    (sRelisted.nft.info 0).status = .UNLOCKED ∧
    (sRelisted.mkt.listings 0).price = 10000 ∧
    ¬isInEscrow sRelisted.mkt 0 ∧
    isErr (step sRelisted (.purchase 4 10000 0)) .StateError = true ∧
    (stepD sRelisted (.purchase 4 10000 0)).nft.isLocked 0 = false := by
  refine ⟨reach_runD 0 _, ?_, ?_, ?_, ?_, ?_, ?_⟩ <;> decide

/-- A status outside `{PENDING, VERIFIED}`: the asset can never again pass
`lockTicket`'s precondition. -/
def StatusDead (s : Sys) (t : Nat) : Prop :=
  (s.nft.info t).status ≠ .PENDING ∧ (s.nft.info t).status ≠ .VERIFIED

theorem dead_step {s : Sys} {a : Act} {s' : Sys} {t : Nat} (hInv : Inv s)
    (h : step s a = .ok s') (hd : StatusDead s t) : StatusDead s' t := by
  cases a with
  | tick dt =>
    simp only [step] at h
    obtain rfl := Except.ok.inj h
    exact hd
  | mint dst d =>
    simp only [step, EventTicketNFT.mintTicket] at h
    obtain rfl := Except.ok.inj h
    by_cases ht : t = s.nft.nextTokenId
    · exfalso
      apply hd.1
      rw [ht, hInv.fresh_info _ (Nat.le_refl _)]
      rfl
    · exact ⟨by dsimp only; rw [upd_ne _ _ _ ht]; exact hd.1,
        by dsimp only; rw [upd_ne _ _ _ ht]; exact hd.2⟩
  | verify sender t0 =>
    simp only [step] at h
    obtain ⟨n, hn, hs⟩ := liftNFT_ok h
    obtain ⟨_, _, hst, hn'⟩ := EventTicketNFT.verifyTicket_ok hn
    subst hn'; subst hs
    by_cases ht : t = t0
    · exact absurd (ht ▸ hst) hd.1
    · exact ⟨by dsimp only; rw [upd_ne _ _ _ ht]; exact hd.1,
        by dsimp only; rw [upd_ne _ _ _ ht]; exact hd.2⟩
  | transfer sender fr dst t0 =>
    simp only [step] at h
    obtain ⟨n, hn, hs⟩ := liftNFT_ok h
    obtain ⟨_, _, _, hn'⟩ := EventTicketNFT.transferFrom_ok hn
    subst hn'; subst hs
    exact hd
  | nftAddAdmin sender a =>
    simp only [step] at h
    obtain ⟨n, hn, hs⟩ := liftNFT_ok h
    obtain ⟨_, hn'⟩ := EventTicketNFT.addAdmin_ok hn
    subst hn'; subst hs
    exact hd
  | nftRemoveAdmin sender a =>
    simp only [step] at h
    obtain ⟨n, hn, hs⟩ := liftNFT_ok h
    obtain ⟨_, hn'⟩ := EventTicketNFT.removeAdmin_ok hn
    subst hn'; subst hs
    exact hd
  | list sender t0 price =>
    simp only [step] at h
    obtain ⟨_, _, _, _, _, hs⟩ := TicketMarketplace.listTicket_ok h
    subst hs
    exact hd
  | unlist sender t0 =>
    simp only [step] at h
    obtain ⟨_, _, _, _, hs⟩ := TicketMarketplace.unlistTicket_ok h
    subst hs
    exact hd
  | purchase sender value t0 =>
    simp only [step] at h
    obtain ⟨_, _, _, _, _, _, _, _, hs⟩ := TicketMarketplace.purchaseTicket_ok h
    subst hs
    by_cases ht : t = t0
    · subst ht
      exact ⟨by dsimp only; rw [upd_same]; simp, by dsimp only; rw [upd_same]; simp⟩
    · exact ⟨by dsimp only; rw [upd_ne _ _ _ ht]; exact hd.1,
        by dsimp only; rw [upd_ne _ _ _ ht]; exact hd.2⟩
  | confirm sender t0 =>
    simp only [step] at h
    obtain ⟨_, _, _, _, hcase⟩ := TicketMarketplace.confirmTransaction_ok_cases h
    have handle : ∀ e1 : EscrowTransaction,
        TicketMarketplace.completeEscrow (TicketMarketplace.setEscrow s t0 e1) t0 =
          .ok s' → StatusDead s' t := by
      intro e1 hdone
      obtain ⟨_, _, _, hs⟩ := TicketMarketplace.completeEscrow_ok hdone
      subst hs
      by_cases ht : t = t0
      · subst ht
        exact ⟨by dsimp only; rw [upd_same]; simp, by dsimp only; rw [upd_same]; simp⟩
      · exact ⟨by dsimp only; rw [upd_ne _ _ _ ht]; exact hd.1,
          by dsimp only; rw [upd_ne _ _ _ ht]; exact hd.2⟩
    rcases hcase with ⟨_, _, ⟨_, hdone⟩ | ⟨_, hs⟩⟩ | ⟨_, _, _, ⟨_, hdone⟩ | ⟨_, hs⟩⟩
    · exact handle _ hdone
    · subst hs; exact hd
    · exact handle _ hdone
    · subst hs; exact hd
  | autoRelease sender t0 =>
    simp only [step] at h
    obtain ⟨_, _, _, _, _, hdone⟩ := TicketMarketplace.autoReleaseEscrow_ok h
    obtain ⟨_, _, _, hs⟩ := TicketMarketplace.completeEscrow_ok hdone
    subst hs
    by_cases ht : t = t0
    · subst ht
      exact ⟨by dsimp only; rw [upd_same]; simp, by dsimp only; rw [upd_same]; simp⟩
    · exact ⟨by dsimp only; rw [upd_ne _ _ _ ht]; exact hd.1,
        by dsimp only; rw [upd_ne _ _ _ ht]; exact hd.2⟩
  | dispute sender t0 reason =>
    simp only [step] at h
    obtain ⟨_, _, _, _, _, _, _, hs⟩ := TicketMarketplace.raiseDispute_ok h
    subst hs
    by_cases ht : t = t0
    · subst ht
      exact ⟨by dsimp only; rw [upd_same]; simp, by dsimp only; rw [upd_same]; simp⟩
    · exact ⟨by dsimp only; rw [upd_ne _ _ _ ht]; exact hd.1,
        by dsimp only; rw [upd_ne _ _ _ ht]; exact hd.2⟩
  | resolve sender t0 w =>
    simp only [step] at h
    have hs : s'.nft.info = upd s.nft.info t0 { s.nft.info t0 with status := .UNLOCKED } := by
      cases w with
      | true =>
        obtain ⟨_, _, _, _, _, _, _, hs⟩ := TicketMarketplace.resolveDispute_ok_sellerWins h
        subst hs; rfl
      | false =>
        obtain ⟨_, _, _, _, _, _, _, _, hs⟩ := TicketMarketplace.resolveDispute_ok_buyerWins h
        subst hs; rfl
    by_cases ht : t = t0
    · subst ht
      exact ⟨by rw [hs, upd_same]; simp, by rw [hs, upd_same]; simp⟩
    · exact ⟨by rw [hs, upd_ne _ _ _ ht]; exact hd.1,
        by rw [hs, upd_ne _ _ _ ht]; exact hd.2⟩
  | updateFee sender f =>
    simp only [step] at h
    obtain ⟨_, _, hs⟩ := TicketMarketplace.updateMarketplaceFee_ok h
    subst hs
    exact hd
  | mktAddAdmin sender a =>
    simp only [step] at h
    obtain ⟨_, hs⟩ := TicketMarketplace.mktAddAdmin_ok h
    subst hs
    exact hd
  | mktRemoveAdmin sender a =>
    simp only [step] at h
    obtain ⟨_, hs⟩ := TicketMarketplace.mktRemoveAdmin_ok h
    subst hs
    exact hd
  | withdraw sender =>
    simp only [step] at h
    obtain ⟨_, _, hs⟩ := TicketMarketplace.withdrawFees_ok h
    subst hs
    exact hd

theorem dead_steps {s s' : Sys} {t : Nat} (hInv : Inv s) (h : Steps s s')
    (hd : StatusDead s t) : StatusDead s' t := by
  induction h with
  | refl => exact hd
  | next a hs hstep ih => exact dead_step (inv_steps hInv hs) hstep ih

/-- C4: once an asset's status is `UNLOCKED`, no purchase of it can ever
succeed again in any reachable future: `lockTicket` demands `VERIFIED`,
and no operation returns a non-`PENDING` asset to `VERIFIED`. -/
theorem C4_no_purchase_after_unlock (s : Sys) (hReach : Reach s) (t : Nat)
    (hst : (s.nft.info t).status = .UNLOCKED) (s' : Sys) (hSteps : Steps s s')
    (sender value : Nat) :
    ¬∃ s'', step s' (.purchase sender value t) = .ok s'' := by
  rintro ⟨s'', hok⟩
  have hd : StatusDead s t := ⟨by rw [hst]; simp, by rw [hst]; simp⟩
  have hd' := dead_steps (reach_inv hReach) hSteps hd
  have hver := (TicketMarketplace.purchaseTicket_ok
    (by simpa [step] using hok)).2.2.2.2.2.2.1
  exact hd'.2 hver

theorem C4_no_purchase_after_unlock_witness :
    ¬∃ s'', step sSettled (.purchase 4 10000 0) = .ok s'' :=
  C4_no_purchase_after_unlock sSettled (reach_runD 0 _) 0 (by decide) sSettled
    (Steps.refl _) 4 10000

/-- C5 (counterexample): in the reachable state `sStaleListing` the
listing for token 0 is active at price 10000 with seller 2, buyer 3 pays
the exact price, differs from the seller, and no escrow is open — all four
conditions of the claim hold — yet the purchase reverts, because the
seller transferred the asset away while it was listed. -/
theorem C5_counterexample :
    Reach sStaleListing ∧ (sStaleListing.mkt.listings 0).active = true ∧
    (sStaleListing.mkt.listings 0).price = 10000 ∧
    (sStaleListing.mkt.listings 0).seller = 2 ∧
    ¬isInEscrow sStaleListing.mkt 0 ∧
    isErr (step sStaleListing (.purchase 3 10000 0)) .AuthorizationError = true := by
  refine ⟨reach_runD 0 _, ?_, ?_, ?_, ?_, ?_⟩ <;> decide

/-- A listed but not yet purchased state, for exercising `purchaseTicket`. -/
def sListed : Sys := runD (init 0) [.mint 2 mdA, .verify 0 0, .list 2 0 10000]

/-- C5 (amended): a purchase succeeds exactly when there is an active
listing, the payment equals the price, buyer differs from seller, no open
escrow exists, **and additionally** the token id is minted with status
`VERIFIED` and the listing's seller still owns the asset; on success the
escrow record, custody, lock, listing and escrow index are updated as the
claim describes. -/
theorem C5_purchase_iff (s : Sys) (sender value t : Nat)
    (hauth : s.nft.authorizedMarketplace MARKET = true) :
    ((∃ s', TicketMarketplace.purchaseTicket s sender value t = .ok s') ↔
      (t < s.nft.nextTokenId ∧ (s.mkt.listings t).active = true ∧
        value = (s.mkt.listings t).price ∧ sender ≠ (s.mkt.listings t).seller ∧
        ¬isInEscrow s.mkt t ∧ (s.nft.info t).status = .VERIFIED ∧
        s.nft.owners t = some (s.mkt.listings t).seller)) ∧
    (∀ s', TicketMarketplace.purchaseTicket s sender value t = .ok s' →
      s'.mkt.escrowTransactions t =
        ⟨t, (s.mkt.listings t).seller, sender, (s.mkt.listings t).price, s.time,
          false, false, false, false, ""⟩ ∧
      s'.nft.owners t = some sender ∧ s'.nft.isLocked t = true ∧
      (s'.mkt.listings t).active = false ∧ t ∈ s'.mkt.escrowTokenIds ∧
      s'.mkt.contractBalance = s.mkt.contractBalance + value) := by
  constructor
  · constructor
    · rintro ⟨s', hok⟩
      obtain ⟨h1, h2, h3, h4, h5, _, h7, h8, _⟩ := TicketMarketplace.purchaseTicket_ok hok
      exact ⟨h1, h2, h3, h4, h5, h7, h8⟩
    · rintro ⟨h1, h2, h3, h4, h5, h6, h7⟩
      have hex : tokenExists s.nft t := by rw [tokenExists, h7]; rfl
      unfold TicketMarketplace.purchaseTicket EventTicketNFT.lockTicket
      dsimp only
      rw [if_neg (not_not_intro h1), if_neg (not_not_intro h2), if_neg (not_not_intro h3),
        if_neg h4, if_neg h5, if_neg (not_not_intro hauth), if_neg (not_not_intro hex),
        if_neg (not_not_intro h6)]
      dsimp only
      unfold EventTicketNFT.marketplaceTransfer
      rw [if_neg (not_not_intro hauth)]
      dsimp only
      rw [h7]
      dsimp only
      rw [if_neg (not_not_intro rfl)]
      exact ⟨_, rfl⟩
  · intro s' hok
    obtain ⟨_, _, h3, _, _, _, _, _, hs⟩ := TicketMarketplace.purchaseTicket_ok hok
    subst hs
    refine ⟨?_, ?_, ?_, ?_, ?_, ?_⟩ <;> dsimp only <;>
      first
      | rw [upd_same]
      | exact List.mem_append_right _ (List.mem_singleton.mpr rfl)

theorem C5_purchase_iff_witness :
    (stepD sListed (.purchase 3 10000 0)).nft.isLocked 0 = true ∧
    0 ∈ (stepD sListed (.purchase 3 10000 0)).mkt.escrowTokenIds := by
  have h := C5_purchase_iff sListed 3 10000 0 (by decide)
  have hok : TicketMarketplace.purchaseTicket sListed 3 10000 0 =
      .ok (stepD sListed (.purchase 3 10000 0)) := rfl
  obtain ⟨_, _, h3, _, h5, _⟩ := h.2 _ hok
  exact ⟨h3, h5⟩

/-- C6: whenever an escrow settles — by the second confirmation or by
auto-release — the seller is credited exactly
`price - price * feeBps / 10000`, the buyer is credited nothing, and the
engine's balance drops by exactly the seller's amount, i.e. it retains
exactly the computed fee out of the escrowed price. -/
theorem C6_settlement_exact_fee_split (s : Sys) (sender t : Nat) (s' : Sys)
    (hne : (s.mkt.escrowTransactions t).buyer ≠ (s.mkt.escrowTransactions t).seller) :
    (step s (.confirm sender t) = .ok s' →
      (s'.mkt.escrowTransactions t).completed = true →
      s'.paidOut (s.mkt.escrowTransactions t).seller =
        s.paidOut (s.mkt.escrowTransactions t).seller +
          ((s.mkt.escrowTransactions t).price -
            (s.mkt.escrowTransactions t).price * s.mkt.marketplaceFee / 10000) ∧
      s'.paidOut (s.mkt.escrowTransactions t).buyer =
        s.paidOut (s.mkt.escrowTransactions t).buyer ∧
      s'.mkt.contractBalance +
          ((s.mkt.escrowTransactions t).price -
            (s.mkt.escrowTransactions t).price * s.mkt.marketplaceFee / 10000) =
        s.mkt.contractBalance) ∧
    (step s (.autoRelease sender t) = .ok s' →
      s'.paidOut (s.mkt.escrowTransactions t).seller =
        s.paidOut (s.mkt.escrowTransactions t).seller +
          ((s.mkt.escrowTransactions t).price -
            (s.mkt.escrowTransactions t).price * s.mkt.marketplaceFee / 10000) ∧
      s'.paidOut (s.mkt.escrowTransactions t).buyer =
        s.paidOut (s.mkt.escrowTransactions t).buyer ∧
      s'.mkt.contractBalance +
          ((s.mkt.escrowTransactions t).price -
            (s.mkt.escrowTransactions t).price * s.mkt.marketplaceFee / 10000) =
        s.mkt.contractBalance) := by
  have core : ∀ e1 : EscrowTransaction,
      e1.seller = (s.mkt.escrowTransactions t).seller →
      e1.price = (s.mkt.escrowTransactions t).price →
      TicketMarketplace.completeEscrow (TicketMarketplace.setEscrow s t e1) t = .ok s' →
      s'.paidOut (s.mkt.escrowTransactions t).seller =
        s.paidOut (s.mkt.escrowTransactions t).seller +
          ((s.mkt.escrowTransactions t).price -
            (s.mkt.escrowTransactions t).price * s.mkt.marketplaceFee / 10000) ∧
      s'.paidOut (s.mkt.escrowTransactions t).buyer =
        s.paidOut (s.mkt.escrowTransactions t).buyer ∧
      s'.mkt.contractBalance +
          ((s.mkt.escrowTransactions t).price -
            (s.mkt.escrowTransactions t).price * s.mkt.marketplaceFee / 10000) =
        s.mkt.contractBalance := by
    intro e1 hsel hpr hdone
    obtain ⟨hle, _, _, hs⟩ := TicketMarketplace.completeEscrow_ok hdone
    subst hs
    simp only [TicketMarketplace.setEscrow, upd_same, hsel, hpr] at hle ⊢
    refine ⟨?_, ?_, ?_⟩
    · trivial
    · exact upd_ne _ _ _ hne
    · omega
  constructor
  · intro h hcomp
    simp only [step] at h
    obtain ⟨_, _, hc, _, hcase⟩ := TicketMarketplace.confirmTransaction_ok_cases h
    rcases hcase with ⟨_, _, ⟨_, hdone⟩ | ⟨_, hs⟩⟩ | ⟨_, _, _, ⟨_, hdone⟩ | ⟨_, hs⟩⟩
    · exact core { s.mkt.escrowTransactions t with sellerConfirmed := true } rfl rfl hdone
    · subst hs
      simp [TicketMarketplace.setEscrow, upd_same, hc] at hcomp
    · exact core { s.mkt.escrowTransactions t with buyerConfirmed := true } rfl rfl hdone
    · subst hs
      simp [TicketMarketplace.setEscrow, upd_same, hc] at hcomp
  · intro h
    simp only [step] at h
    obtain ⟨_, _, _, _, _, hdone⟩ := TicketMarketplace.autoReleaseEscrow_ok h
    obtain ⟨hle, _, _, hs⟩ := TicketMarketplace.completeEscrow_ok hdone
    subst hs
    refine ⟨by simp only []; rw [upd_same], by simp only []; rw [upd_ne _ _ _ hne],
      by simp only []; omega⟩

theorem C6_settlement_exact_fee_split_witness :
    sSettled.paidOut (sHalfConfirmed.mkt.escrowTransactions 0).seller =
      sHalfConfirmed.paidOut (sHalfConfirmed.mkt.escrowTransactions 0).seller +
        ((sHalfConfirmed.mkt.escrowTransactions 0).price -
          (sHalfConfirmed.mkt.escrowTransactions 0).price *
            sHalfConfirmed.mkt.marketplaceFee / 10000) ∧
    sSettled.paidOut (sHalfConfirmed.mkt.escrowTransactions 0).buyer =
      sHalfConfirmed.paidOut (sHalfConfirmed.mkt.escrowTransactions 0).buyer ∧
    sSettled.mkt.contractBalance +
        ((sHalfConfirmed.mkt.escrowTransactions 0).price -
          (sHalfConfirmed.mkt.escrowTransactions 0).price *
            sHalfConfirmed.mkt.marketplaceFee / 10000) =
      sHalfConfirmed.mkt.contractBalance :=
  (C6_settlement_exact_fee_split sHalfConfirmed 3 0 sSettled (by decide)).1
    rfl (by decide)

/-- C7: resolving a dispute with `sellerWins = false` on a disputed,
non-completed escrow refunds the buyer the full price (no fee), returns
custody to the seller through the privileged transfer, unlocks the asset
(status `UNLOCKED`), marks the escrow completed, and removes the asset
from the in-escrow index. -/
theorem C7_resolve_buyer_full_refund (s : Sys) (sender t : Nat) (s' : Sys)
    (hne : (s.mkt.escrowTransactions t).seller ≠ (s.mkt.escrowTransactions t).buyer)
    (hcnt : s.mkt.escrowTokenIds.count t ≤ 1)
    (h : step s (.resolve sender t false) = .ok s') :
    s'.paidOut (s.mkt.escrowTransactions t).buyer =
      s.paidOut (s.mkt.escrowTransactions t).buyer +
        (s.mkt.escrowTransactions t).price ∧
    s'.paidOut (s.mkt.escrowTransactions t).seller =
      s.paidOut (s.mkt.escrowTransactions t).seller ∧
    s'.nft.owners t = some (s.mkt.escrowTransactions t).seller ∧
    s'.nft.isLocked t = false ∧
    (s'.nft.info t).status = .UNLOCKED ∧
    (s'.mkt.escrowTransactions t).completed = true ∧
    t ∉ s'.mkt.escrowTokenIds ∧
    s'.mkt.contractBalance + (s.mkt.escrowTransactions t).price =
      s.mkt.contractBalance := by
  simp only [step] at h
  obtain ⟨_, _, _, _, hle, _, _, _, hs⟩ :=
    TicketMarketplace.resolveDispute_ok_buyerWins h
  subst hs
  refine ⟨?_, ?_, ?_, ?_, ?_, ?_, ?_, ?_⟩ <;> dsimp only
  · rw [upd_same]
  · exact upd_ne _ _ _ hne
  · rw [upd_same]
  · rw [upd_same]
  · rw [upd_same]
  · rw [upd_same]
  · exact not_mem_swapRemove hcnt
  · omega

theorem C7_resolve_buyer_full_refund_witness :
    (stepD sDisputed (.resolve 0 0 false)).paidOut
        (sDisputed.mkt.escrowTransactions 0).buyer =
      sDisputed.paidOut (sDisputed.mkt.escrowTransactions 0).buyer +
        (sDisputed.mkt.escrowTransactions 0).price ∧
    (stepD sDisputed (.resolve 0 0 false)).paidOut
        (sDisputed.mkt.escrowTransactions 0).seller =
      sDisputed.paidOut (sDisputed.mkt.escrowTransactions 0).seller ∧
    (stepD sDisputed (.resolve 0 0 false)).nft.owners 0 =
      some (sDisputed.mkt.escrowTransactions 0).seller ∧
    (stepD sDisputed (.resolve 0 0 false)).nft.isLocked 0 = false ∧
    ((stepD sDisputed (.resolve 0 0 false)).nft.info 0).status = .UNLOCKED ∧
    ((stepD sDisputed (.resolve 0 0 false)).mkt.escrowTransactions 0).completed = true ∧
    0 ∉ (stepD sDisputed (.resolve 0 0 false)).mkt.escrowTokenIds ∧
    (stepD sDisputed (.resolve 0 0 false)).mkt.contractBalance +
        (sDisputed.mkt.escrowTransactions 0).price =
      sDisputed.mkt.contractBalance :=
  C7_resolve_buyer_full_refund sDisputed 0 0 (stepD sDisputed (.resolve 0 0 false))
    (by decide) (by decide) rfl

/-- The settlement helper succeeds whenever the registry authorizes the
marketplace, the token exists and is locked, and the contract balance
covers the seller's amount; it completes the escrow and preserves the
other escrow fields, the price and the token counter. -/
theorem completeEscrow_total {s0 : Sys} {t : Nat}
    (hauth : s0.nft.authorizedMarketplace MARKET = true)
    (hex : tokenExists s0.nft t)
    (hlock : s0.nft.isLocked t = true)
    (hfunds : (s0.mkt.escrowTransactions t).price -
        (s0.mkt.escrowTransactions t).price * s0.mkt.marketplaceFee / 10000 ≤
        s0.mkt.contractBalance) :
    ∃ s', TicketMarketplace.completeEscrow s0 t = .ok s' ∧
      (s'.mkt.escrowTransactions t).completed = true ∧
      (s'.mkt.escrowTransactions t).sellerConfirmed =
        (s0.mkt.escrowTransactions t).sellerConfirmed ∧
      (s'.mkt.escrowTransactions t).buyerConfirmed =
        (s0.mkt.escrowTransactions t).buyerConfirmed ∧
      (s'.mkt.escrowTransactions t).price = (s0.mkt.escrowTransactions t).price ∧
      s'.nft.nextTokenId = s0.nft.nextTokenId := by
  unfold TicketMarketplace.completeEscrow TicketMarketplace.releaseFundsToSeller
    ledgerTransfer EventTicketNFT.unlockTicket TicketMarketplace.setEscrow
  dsimp only
  rw [if_neg (Nat.not_lt.mpr hfunds)]
  dsimp only
  rw [if_neg (not_not_intro hauth), if_neg (not_not_intro hex),
    if_neg (not_not_intro hlock)]
  dsimp only
  refine ⟨_, rfl, ?_, ?_, ?_, ?_, ?_⟩ <;> dsimp only <;> rw [upd_same]

/-- C8 (amended): on an open **and non-disputed** escrow whose seller or
buyer is the caller, confirm fails with a state error (and changes
nothing) when that party has already confirmed; when the counterparty has
not yet confirmed, it sets the caller's confirmed flag without settling;
and when the call makes both flags true, settlement runs in the same
call and succeeds provided the engine still holds the seller's payout
(`withdrawFees` can drain it — see the counterexample's second part, in
which case the whole confirmation reverts). -/
theorem C8_confirm_once_then_settle (s : Sys) (sender t : Nat)
    (hReach : Reach s)
    (hval : t < s.nft.nextTokenId)
    (hp : 0 < (s.mkt.escrowTransactions t).price)
    (hc : (s.mkt.escrowTransactions t).completed = false)
    (hd : (s.mkt.escrowTransactions t).disputed = false) :
    (sender = (s.mkt.escrowTransactions t).seller →
      (s.mkt.escrowTransactions t).sellerConfirmed = true →
      step s (.confirm sender t) = .error .StateError ∧
      stepD s (.confirm sender t) = s) ∧
    (sender = (s.mkt.escrowTransactions t).seller →
      (s.mkt.escrowTransactions t).sellerConfirmed = false →
      (s.mkt.escrowTransactions t).buyerConfirmed = false →
      ∃ s', step s (.confirm sender t) = .ok s' ∧
        (s'.mkt.escrowTransactions t).sellerConfirmed = true ∧
        (s'.mkt.escrowTransactions t).completed = false) ∧
    (sender = (s.mkt.escrowTransactions t).seller →
      (s.mkt.escrowTransactions t).sellerConfirmed = false →
      (s.mkt.escrowTransactions t).buyerConfirmed = true →
      (s.mkt.escrowTransactions t).price -
          (s.mkt.escrowTransactions t).price * s.mkt.marketplaceFee / 10000 ≤
          s.mkt.contractBalance →
      ∃ s', step s (.confirm sender t) = .ok s' ∧
        (s'.mkt.escrowTransactions t).sellerConfirmed = true ∧
        (s'.mkt.escrowTransactions t).completed = true) ∧
    (sender = (s.mkt.escrowTransactions t).buyer →
      sender ≠ (s.mkt.escrowTransactions t).seller →
      (s.mkt.escrowTransactions t).buyerConfirmed = true →
      step s (.confirm sender t) = .error .StateError ∧
      stepD s (.confirm sender t) = s) ∧
    (sender = (s.mkt.escrowTransactions t).buyer →
      sender ≠ (s.mkt.escrowTransactions t).seller →
      (s.mkt.escrowTransactions t).buyerConfirmed = false →
      (s.mkt.escrowTransactions t).sellerConfirmed = false →
      ∃ s', step s (.confirm sender t) = .ok s' ∧
        (s'.mkt.escrowTransactions t).buyerConfirmed = true ∧
        (s'.mkt.escrowTransactions t).completed = false) ∧
    (sender = (s.mkt.escrowTransactions t).buyer →
      sender ≠ (s.mkt.escrowTransactions t).seller →
      (s.mkt.escrowTransactions t).buyerConfirmed = false →
      (s.mkt.escrowTransactions t).sellerConfirmed = true →
      (s.mkt.escrowTransactions t).price -
          (s.mkt.escrowTransactions t).price * s.mkt.marketplaceFee / 10000 ≤
          s.mkt.contractBalance →
      ∃ s', step s (.confirm sender t) = .ok s' ∧
        (s'.mkt.escrowTransactions t).buyerConfirmed = true ∧
        (s'.mkt.escrowTransactions t).completed = true) := by
  obtain ⟨hauth, hminted⟩ := reach_nft_facts hReach
  have hex : tokenExists s.nft t := hminted t hval
  have hlock : s.nft.isLocked t = true := (reach_inv hReach).escrow_locked t ⟨hp, hc⟩
  refine ⟨?_, ?_, ?_, ?_, ?_, ?_⟩
  · intro hsel hsc
    have herr : step s (.confirm sender t) = .error .StateError := by
      show TicketMarketplace.confirmTransaction s sender t = .error .StateError
      unfold TicketMarketplace.confirmTransaction
      dsimp only
      rw [if_neg (not_not_intro hval), if_neg (not_not_intro hp),
        if_neg (by simp [hc]), if_neg (by simp [hd]),
        if_neg (not_not_intro (Or.inr hsel)), if_pos hsel, if_pos hsc]
    refine ⟨herr, ?_⟩
    unfold stepD
    rw [herr]
  · intro hsel hsc hbc
    refine ⟨TicketMarketplace.setEscrow s t
      { s.mkt.escrowTransactions t with sellerConfirmed := true }, ?_, ?_, ?_⟩
    · show TicketMarketplace.confirmTransaction s sender t = .ok _
      unfold TicketMarketplace.confirmTransaction
      dsimp only
      rw [if_neg (not_not_intro hval), if_neg (not_not_intro hp),
        if_neg (by simp [hc]), if_neg (by simp [hd]),
        if_neg (not_not_intro (Or.inr hsel)), if_pos hsel,
        if_neg (by simp [hsc]), if_neg (by simp [hbc])]
    · simp [TicketMarketplace.setEscrow, upd_same]
    · simp [TicketMarketplace.setEscrow, upd_same, hc]
  · intro hsel hsc hbc hfunds
    obtain ⟨s', hok, hcompl, hsc', _, _, _⟩ :=
      @completeEscrow_total (TicketMarketplace.setEscrow s t
        { s.mkt.escrowTransactions t with sellerConfirmed := true }) t
        hauth hex hlock
        (by simp only [TicketMarketplace.setEscrow, upd_same]; exact hfunds)
    refine ⟨s', ?_, ?_, hcompl⟩
    · show TicketMarketplace.confirmTransaction s sender t = .ok s'
      unfold TicketMarketplace.confirmTransaction
      dsimp only
      rw [if_neg (not_not_intro hval), if_neg (not_not_intro hp),
        if_neg (by simp [hc]), if_neg (by simp [hd]),
        if_neg (not_not_intro (Or.inr hsel)), if_pos hsel,
        if_neg (by simp [hsc]), if_pos (by simp [hbc])]
      exact hok
    · rw [hsc']
      simp [TicketMarketplace.setEscrow, upd_same]
  · intro hbuy hnsel hbc
    have herr : step s (.confirm sender t) = .error .StateError := by
      show TicketMarketplace.confirmTransaction s sender t = .error .StateError
      unfold TicketMarketplace.confirmTransaction
      dsimp only
      rw [if_neg (not_not_intro hval), if_neg (not_not_intro hp),
        if_neg (by simp [hc]), if_neg (by simp [hd]),
        if_neg (not_not_intro (Or.inl hbuy)), if_neg hnsel, if_pos hbc]
    refine ⟨herr, ?_⟩
    unfold stepD
    rw [herr]
  · intro hbuy hnsel hbc hsc
    refine ⟨TicketMarketplace.setEscrow s t
      { s.mkt.escrowTransactions t with buyerConfirmed := true }, ?_, ?_, ?_⟩
    · show TicketMarketplace.confirmTransaction s sender t = .ok _
      unfold TicketMarketplace.confirmTransaction
      dsimp only
      rw [if_neg (not_not_intro hval), if_neg (not_not_intro hp),
        if_neg (by simp [hc]), if_neg (by simp [hd]),
        if_neg (not_not_intro (Or.inl hbuy)), if_neg hnsel,
        if_neg (by simp [hbc]), if_neg (by simp [hsc])]
    · simp [TicketMarketplace.setEscrow, upd_same]
    · simp [TicketMarketplace.setEscrow, upd_same, hc]
  · intro hbuy hnsel hbc hsc hfunds
    obtain ⟨s', hok, hcompl, _, hbc', _, _⟩ :=
      @completeEscrow_total (TicketMarketplace.setEscrow s t
        { s.mkt.escrowTransactions t with buyerConfirmed := true }) t
        hauth hex hlock
        (by simp only [TicketMarketplace.setEscrow, upd_same]; exact hfunds)
    refine ⟨s', ?_, ?_, hcompl⟩
    · show TicketMarketplace.confirmTransaction s sender t = .ok s'
      unfold TicketMarketplace.confirmTransaction
      dsimp only
      rw [if_neg (not_not_intro hval), if_neg (not_not_intro hp),
        if_neg (by simp [hc]), if_neg (by simp [hd]),
        if_neg (not_not_intro (Or.inl hbuy)), if_neg hnsel,
        if_neg (by simp [hbc]), if_pos (by simp [hsc])]
      exact hok
    · rw [hbc']
      simp [TicketMarketplace.setEscrow, upd_same]

theorem C8_confirm_once_then_settle_witness :
    (step sHalfConfirmed (.confirm 2 0) = .error .StateError ∧
      stepD sHalfConfirmed (.confirm 2 0) = sHalfConfirmed) ∧
    (∃ s', step sHalfConfirmed (.confirm 3 0) = .ok s' ∧
      (s'.mkt.escrowTransactions 0).buyerConfirmed = true ∧
      (s'.mkt.escrowTransactions 0).completed = true) ∧
    (∃ s', step sPurchased (.confirm 2 0) = .ok s' ∧
      (s'.mkt.escrowTransactions 0).sellerConfirmed = true ∧
      (s'.mkt.escrowTransactions 0).completed = false) := by
  have h2 := C8_confirm_once_then_settle sHalfConfirmed 2 0 (reach_runD 0 _)
    (by decide) (by decide) (by decide) (by decide)
  have h3 := C8_confirm_once_then_settle sHalfConfirmed 3 0 (reach_runD 0 _)
    (by decide) (by decide) (by decide) (by decide)
  have h4 := C8_confirm_once_then_settle sPurchased 2 0 (reach_runD 0 _)
    (by decide) (by decide) (by decide) (by decide)
  exact ⟨h2.1 (by decide) (by decide),
    h3.2.2.2.2.2 (by decide) (by decide) (by decide) (by decide) (by decide),
    h4.2.1 (by decide) (by decide) (by decide)⟩

/-- C9 (counterexample): in the reachable state `sPostDrain` (owner drains
the contract with `withdrawFees` while the escrow on token 1 is open, then
the 7-day confirmation period elapses) the escrow is open and
non-disputed and the deadline has passed, yet `autoReleaseEscrow` reverts
in the funds ledger instead of succeeding, and the state is unchanged. -/
theorem C9_counterexample :
    Reach sPostDrain ∧
    0 < (sPostDrain.mkt.escrowTransactions 1).price ∧
    (sPostDrain.mkt.escrowTransactions 1).completed = false ∧
    (sPostDrain.mkt.escrowTransactions 1).disputed = false ∧
    (sPostDrain.mkt.escrowTransactions 1).startTime + CONFIRMATION_PERIOD ≤
      sPostDrain.time ∧
    isErr (step sPostDrain (.autoRelease 9 1)) .ValueError = true ∧
    stepD sPostDrain (.autoRelease 9 1) = sPostDrain := by
  refine ⟨reach_runD 0 _, ?_, ?_, ?_, ?_, ?_, rfl⟩ <;> decide

/-- C9 (amended): on an open, non-disputed escrow of a reachable state,
`autoReleaseEscrow` is rejected with a state error (no state change)
strictly before `startTime + CONFIRMATION_PERIOD`; at or after that
instant it succeeds **provided the engine's balance still covers the
seller's payout** (`withdrawFees` can drain it, and then the call reverts
in the funds ledger — see the counterexample); and it settles the escrow
exactly once: the same call on the resulting completed escrow is
rejected. -/
theorem C9_autorelease_window (s : Sys) (sender t : Nat)
    (hReach : Reach s)
    (hval : t < s.nft.nextTokenId)
    (hp : 0 < (s.mkt.escrowTransactions t).price)
    (hc : (s.mkt.escrowTransactions t).completed = false)
    (hd : (s.mkt.escrowTransactions t).disputed = false) :
    (s.time < (s.mkt.escrowTransactions t).startTime + CONFIRMATION_PERIOD →
      step s (.autoRelease sender t) = .error .StateError ∧
      stepD s (.autoRelease sender t) = s) ∧
    ((s.mkt.escrowTransactions t).startTime + CONFIRMATION_PERIOD ≤ s.time →
      (s.mkt.escrowTransactions t).price -
          (s.mkt.escrowTransactions t).price * s.mkt.marketplaceFee / 10000 ≤
          s.mkt.contractBalance →
      ∃ s', step s (.autoRelease sender t) = .ok s' ∧
        (s'.mkt.escrowTransactions t).completed = true ∧
        step s' (.autoRelease sender t) = .error .StateError) := by
  obtain ⟨hauth, hminted⟩ := reach_nft_facts hReach
  have hex : tokenExists s.nft t := hminted t hval
  have hlock : s.nft.isLocked t = true := (reach_inv hReach).escrow_locked t ⟨hp, hc⟩
  constructor
  · intro hearly
    have herr : step s (.autoRelease sender t) = .error .StateError := by
      show TicketMarketplace.autoReleaseEscrow s t = .error .StateError
      unfold TicketMarketplace.autoReleaseEscrow
      dsimp only
      rw [if_neg (not_not_intro hval), if_neg (not_not_intro hp),
        if_neg (by simp [hc]), if_neg (by simp [hd]), if_pos hearly]
    refine ⟨herr, ?_⟩
    unfold stepD
    rw [herr]
  · intro hlate hfunds
    obtain ⟨s', hok, hcompl, _, _, hprice, hnext⟩ :=
      @completeEscrow_total s t hauth hex hlock hfunds
    refine ⟨s', ?_, hcompl, ?_⟩
    · show TicketMarketplace.autoReleaseEscrow s t = .ok s'
      unfold TicketMarketplace.autoReleaseEscrow
      dsimp only
      rw [if_neg (not_not_intro hval), if_neg (not_not_intro hp),
        if_neg (by simp [hc]), if_neg (by simp [hd]),
        if_neg (Nat.not_lt.mpr hlate)]
      exact hok
    · show TicketMarketplace.autoReleaseEscrow s' t = .error .StateError
      unfold TicketMarketplace.autoReleaseEscrow
      dsimp only
      rw [if_neg (not_not_intro (hnext ▸ hval)), if_neg (not_not_intro (by
        rw [hprice]; exact hp)), if_pos hcompl]

theorem C9_autorelease_window_witness :
    (step sPurchased (.autoRelease 9 0) = .error .StateError ∧
      stepD sPurchased (.autoRelease 9 0) = sPurchased) ∧
    (∃ s', step (stepD sPurchased (.tick 604800)) (.autoRelease 9 0) = .ok s' ∧
      (s'.mkt.escrowTransactions 0).completed = true ∧
      step s' (.autoRelease 9 0) = .error .StateError) := by
  have h1 := C9_autorelease_window sPurchased 9 0 (reach_runD 0 _) (by decide)
    (by decide) (by decide) (by decide)
  have h2 := C9_autorelease_window (stepD sPurchased (.tick 604800)) 9 0
    ⟨0, steps_trans (steps_runD (init 0) actsPurchased)
      (steps_stepD sPurchased (.tick 604800))⟩
    (by decide) (by decide) (by decide) (by decide)
  exact ⟨h1.1 (by decide), h2.2 (by decide) (by decide)⟩

/-- C10: while an asset is locked, the ordinary transfer always fails with
a state error; the marketplace-only privileged transfer ignores the lock
and reassigns the owner; and across every public transaction of the
system, a locked asset's owner can change only through the actions that
use the privileged transfer (purchase and dispute resolution). -/
theorem C10_lock_blocks_ordinary_transfer (s : Sys) (hReach : Reach s) (t : Nat)
    (hlock : s.nft.isLocked t = true) :
    (∀ sender fr dst,
      EventTicketNFT.transferFrom s.nft sender fr dst t = .error .StateError) ∧
    (∀ sender fr dst, s.nft.authorizedMarketplace sender = true →
      s.nft.owners t = some fr →
      ∃ n', EventTicketNFT.marketplaceTransfer s.nft sender fr dst t = .ok n' ∧
        n'.owners t = some dst) ∧
    (∀ a s', step s a = .ok s' → s'.nft.owners t ≠ s.nft.owners t →
      privilegedAct a = true) := by
  have hInv := reach_inv hReach
  refine ⟨?_, ?_, ?_⟩
  · intro sender fr dst
    unfold EventTicketNFT.transferFrom
    rw [if_pos hlock]
  · intro sender fr dst hauth ho
    unfold EventTicketNFT.marketplaceTransfer
    rw [if_neg (not_not_intro hauth), ho]
    dsimp only
    rw [if_neg (not_not_intro rfl)]
    exact ⟨_, rfl, by dsimp only; rw [upd_same]⟩
  · intro a s' h hne
    cases a with
    | tick dt =>
      simp only [step] at h
      obtain rfl := Except.ok.inj h
      exact absurd rfl hne
    | mint dst d =>
      simp only [step, EventTicketNFT.mintTicket] at h
      obtain rfl := Except.ok.inj h
      exfalso
      apply hne
      dsimp only
      by_cases ht : t = s.nft.nextTokenId
      · rw [ht] at hlock
        rw [hInv.fresh_lock _ (Nat.le_refl _)] at hlock
        cases hlock
      · rw [upd_ne _ _ _ ht]
    | verify sender t0 =>
      simp only [step] at h
      obtain ⟨n, hn, hs⟩ := liftNFT_ok h
      obtain ⟨_, _, _, hn'⟩ := EventTicketNFT.verifyTicket_ok hn
      subst hn'; subst hs
      exact absurd rfl hne
    | transfer sender fr dst t0 =>
      simp only [step] at h
      obtain ⟨n, hn, hs⟩ := liftNFT_ok h
      obtain ⟨hlf, _, _, hn'⟩ := EventTicketNFT.transferFrom_ok hn
      subst hn'; subst hs
      exfalso
      by_cases ht : t = t0
      · rw [ht] at hlock
        rw [hlock] at hlf
        cases hlf
      · exact hne (by dsimp only; rw [upd_ne _ _ _ ht])
    | nftAddAdmin sender a =>
      simp only [step] at h
      obtain ⟨n, hn, hs⟩ := liftNFT_ok h
      obtain ⟨_, hn'⟩ := EventTicketNFT.addAdmin_ok hn
      subst hn'; subst hs
      exact absurd rfl hne
    | nftRemoveAdmin sender a =>
      simp only [step] at h
      obtain ⟨n, hn, hs⟩ := liftNFT_ok h
      obtain ⟨_, hn'⟩ := EventTicketNFT.removeAdmin_ok hn
      subst hn'; subst hs
      exact absurd rfl hne
    | list sender t0 price =>
      simp only [step] at h
      obtain ⟨_, _, _, _, _, hs⟩ := TicketMarketplace.listTicket_ok h
      subst hs
      exact absurd rfl hne
    | unlist sender t0 =>
      simp only [step] at h
      obtain ⟨_, _, _, _, hs⟩ := TicketMarketplace.unlistTicket_ok h
      subst hs
      exact absurd rfl hne
    | purchase sender value t0 => rfl
    | confirm sender t0 =>
      simp only [step] at h
      obtain ⟨_, _, _, _, hcase⟩ := TicketMarketplace.confirmTransaction_ok_cases h
      exfalso
      apply hne
      have handle : ∀ e1 : EscrowTransaction,
          TicketMarketplace.completeEscrow (TicketMarketplace.setEscrow s t0 e1) t0 =
            .ok s' → s'.nft.owners t = s.nft.owners t := by
        intro e1 hdone
        obtain ⟨_, _, _, hs⟩ := TicketMarketplace.completeEscrow_ok hdone
        subst hs
        rfl
      rcases hcase with ⟨_, _, ⟨_, hdone⟩ | ⟨_, hs⟩⟩ | ⟨_, _, _, ⟨_, hdone⟩ | ⟨_, hs⟩⟩
      · exact handle _ hdone
      · subst hs; rfl
      · exact handle _ hdone
      · subst hs; rfl
    | autoRelease sender t0 =>
      simp only [step] at h
      obtain ⟨_, _, _, _, _, hdone⟩ := TicketMarketplace.autoReleaseEscrow_ok h
      obtain ⟨_, _, _, hs⟩ := TicketMarketplace.completeEscrow_ok hdone
      subst hs
      exact absurd rfl hne
    | dispute sender t0 reason =>
      simp only [step] at h
      obtain ⟨_, _, _, _, _, _, _, hs⟩ := TicketMarketplace.raiseDispute_ok h
      subst hs
      exact absurd rfl hne
    | resolve sender t0 w => rfl
    | updateFee sender f =>
      simp only [step] at h
      obtain ⟨_, _, hs⟩ := TicketMarketplace.updateMarketplaceFee_ok h
      subst hs
      exact absurd rfl hne
    | mktAddAdmin sender a =>
      simp only [step] at h
      obtain ⟨_, hs⟩ := TicketMarketplace.mktAddAdmin_ok h
      subst hs
      exact absurd rfl hne
    | mktRemoveAdmin sender a =>
      simp only [step] at h
      obtain ⟨_, hs⟩ := TicketMarketplace.mktRemoveAdmin_ok h
      subst hs
      exact absurd rfl hne
    | withdraw sender =>
      simp only [step] at h
      obtain ⟨_, _, hs⟩ := TicketMarketplace.withdrawFees_ok h
      subst hs
      exact absurd rfl hne

theorem C10_lock_blocks_ordinary_transfer_witness :
    EventTicketNFT.transferFrom sPurchased.nft 3 3 6 0 = .error .StateError ∧
    (∃ n', EventTicketNFT.marketplaceTransfer sPurchased.nft 1 3 6 0 = .ok n' ∧
      n'.owners 0 = some 6) := by
  have h := C10_lock_blocks_ordinary_transfer sPurchased (reach_runD 0 _) 0 (by decide)
  exact ⟨h.1 3 3 6, h.2.1 1 3 6 (by decide) (by decide)⟩

/-- C8 (counterexample): two reachable refutations of the claim's
"otherwise sets that party's confirmed flag".  First, on the disputed
open escrow of `sDisputed` the seller (who has not yet confirmed) calls
confirm and is rejected with a state error because the escrow is
disputed.  Second, on the open, NON-disputed escrow of `sDrainedHalf`
(the owner drained the contract with `withdrawFees`, then the seller
confirmed) the buyer — who has not yet confirmed — calls confirm: both
flags would become true, settlement runs in the same call, the unfunded
payout reverts in the funds ledger, and the whole confirmation is
rejected, so the flag is not set. -/
theorem C8_counterexample :
    (Reach sDisputed ∧ 0 < (sDisputed.mkt.escrowTransactions 0).price ∧
      (sDisputed.mkt.escrowTransactions 0).completed = false ∧
      (sDisputed.mkt.escrowTransactions 0).seller = 2 ∧
      (sDisputed.mkt.escrowTransactions 0).sellerConfirmed = false ∧
      isErr (step sDisputed (.confirm 2 0)) .StateError = true) ∧
    (Reach sDrainedHalf ∧ 0 < (sDrainedHalf.mkt.escrowTransactions 1).price ∧
      (sDrainedHalf.mkt.escrowTransactions 1).completed = false ∧
      (sDrainedHalf.mkt.escrowTransactions 1).disputed = false ∧
      (sDrainedHalf.mkt.escrowTransactions 1).buyer = 4 ∧
      (sDrainedHalf.mkt.escrowTransactions 1).buyerConfirmed = false ∧
      isErr (step sDrainedHalf (.confirm 4 1)) .ValueError = true ∧
      stepD sDrainedHalf (.confirm 4 1) = sDrainedHalf) := by
  refine ⟨⟨reach_runD 0 _, ?_, ?_, ?_, ?_, ?_⟩,
    ⟨reach_runD 0 _, ?_, ?_, ?_, ?_, ?_, ?_, rfl⟩⟩ <;> decide

end EventNFT
